import Mathlib

/-!
Verification development for the entity co-occurrence network frontend.

The definitions below are shallow embeddings of the TypeScript sources:
  * `calculateEntityRelationships`  — src/services/relationshipCalculator.ts
  * `normalizeEntityType`           — src/services/entityNormalizer.ts
  * `createNetworkNodes`/`createNetworkLinks`/`getNetworkData`
                                    — src/services/networkNodeBuilder.ts,
                                      networkLinkBuilder.ts, entityService
  * `filterNetwork`                 — src/components/NetworkGraph.tsx
                                      (the networkData useMemo visibility filter)
  * `nodesWithPositions`            — src/components/ForceGraph2D.tsx
  * `sizeCache` / `graphStats`      — src/components/ForceGraph2D.tsx
  * `handleNodeClick`               — src/components/NetworkGraph.tsx
  * `fetchAllEntities`              — src/services/entityFetcher.ts, with the
                                      external paginated store modelled as an
                                      ordered row table plus a page-error oracle.

JavaScript `Map` and `Set` are modelled as association lists that preserve
insertion order (`mapSet`, `mapUpsert`, `setAdd`, `pushGroup`), numbers that
are used as integers are `Nat`, and fractional arithmetic (`connections /
maxConnections`) is modelled exactly over `Rat`.
-/

/-- Lexicographic comparison of character lists: the JavaScript `<` operator
on strings (and the propositional order on `List Char`), as an executable
function. -/
def charsLt : List Char → List Char → Bool
  | [], [] => false
  | [], _ :: _ => true
  | _ :: _, [] => false
  | a :: as, b :: bs => if a = b then charsLt as bs else decide (a < b)

/-- JavaScript `a < b` on strings. -/
def strLt (a b : String) : Bool :=
  charsLt a.data b.data

/-- JavaScript `String.prototype.toLowerCase` (character-wise). -/
def strToLower (s : String) : String :=
  ⟨s.data.map Char.toLower⟩

/-- JavaScript `String.prototype.toUpperCase` (character-wise). -/
def strToUpper (s : String) : String :=
  ⟨s.data.map Char.toUpper⟩

/-- JavaScript `String.prototype.trim`: strip whitespace from both ends. -/
def strTrim (s : String) : String :=
  ⟨((s.data.dropWhile Char.isWhitespace).reverse.dropWhile Char.isWhitespace).reverse⟩

/-- JavaScript `String.prototype.includes` on unpacked character lists. -/
def charsIncludes (pat : List Char) : List Char → Bool
  | [] => pat.isEmpty
  | c :: rest => pat.isPrefixOf (c :: rest) || charsIncludes pat rest

/-- JavaScript `s.includes(pat)`. -/
def strIncludes (s pat : String) : Bool :=
  charsIncludes pat.data s.data

/-- A string that does not contain the pipe character used to build
co-occurrence accumulator keys. -/
def pipeFree (s : String) : Prop := '|' ∉ s.data

instance (s : String) : Decidable (pipeFree s) := by
  unfold pipeFree
  infer_instance

/-- First-match association-list lookup (JavaScript `Map.prototype.get`). -/
def lookupA {α β : Type} [DecidableEq α] : α → List (α × β) → Option β
  | _, [] => none
  | k, (k', v) :: rest => if k' = k then some v else lookupA k rest

/-- In-place overwrite, appending when absent (JavaScript `Map.prototype.set`). -/
def mapSet {α β : Type} [DecidableEq α] : List (α × β) → α → β → List (α × β)
  | [], k, v => [(k, v)]
  | (k', v') :: rest, k, v =>
    if k' = k then (k', v) :: rest else (k', v') :: mapSet rest k v

/-- JavaScript `Set.prototype.add`: keeps first-insertion order, ignores
duplicates. -/
def setAdd {α : Type} [DecidableEq α] (s : List α) (x : α) : List α :=
  if x ∈ s then s else s ++ [x]

/-- One row of the `feature_entities` relation (src/services/types.ts). -/
structure EntityNode where
  entity_name : String
  entity_type : String
  feature_id : Nat
deriving DecidableEq, Repr

/-- Accumulator value of the `coOccurrences` map in
`RelationshipCalculator.calculateEntityRelationships`. -/
structure CoOcc where
  entity1 : String
  entity2 : String
  count : Nat
  shared_feature_ids : List Nat
deriving DecidableEq, Repr

/-- Output record of the relationship calculator (src/services/types.ts). -/
structure EntityRelationship where
  entity1 : String
  entity2 : String
  co_occurrence_count : Nat
  shared_feature_ids : List String
deriving DecidableEq, Repr

/-- One step of grouping mentions by `feature_id` (the `entitiesByFeature`
JavaScript `Map`): push the mention onto its group, creating the group at the
end on first sight. -/
def pushGroup : List (Nat × List EntityNode) → EntityNode → List (Nat × List EntityNode)
  | [], e => [(e.feature_id, [e])]
  | (f, es) :: rest, e =>
    if e.feature_id = f then (f, es ++ [e]) :: rest
    else (f, es) :: pushGroup rest e

/-- `entitiesByFeature`: group all mentions by `feature_id`, preserving both
the first-seen order of feature ids and the input order inside each group. -/
def entitiesByFeature (l : List EntityNode) : List (Nat × List EntityNode) :=
  l.foldl pushGroup []

/-- The alphabetically ordered pair used for the accumulator entry
(`entity1 < entity2 ? [entity1, entity2] : [entity2, entity1]`). -/
def sortPair (a b : String) : String × String :=
  if strLt a b then (a, b) else (b, a)

/-- The accumulator key `` `${entity1}|${entity2}` `` in alphabetical order. -/
def pairKey (a b : String) : String :=
  (sortPair a b).1 ++ "|" ++ (sortPair a b).2

/-- Fresh accumulator entry (`count: 0`, empty shared id set). -/
def initOcc (a b : String) : CoOcc :=
  { entity1 := (sortPair a b).1, entity2 := (sortPair a b).2
    count := 0, shared_feature_ids := [] }

/-- `occurrence.count++; occurrence.shared_feature_ids.add(featureId)`. -/
def updateOcc (o : CoOcc) (fid : Nat) : CoOcc :=
  { o with count := o.count + 1, shared_feature_ids := setAdd o.shared_feature_ids fid }

/-- Insert-or-update of the co-occurrence map keyed by `pairKey`. -/
def mapUpsert : List (String × CoOcc) → String → CoOcc → Nat → List (String × CoOcc)
  | [], k, init, fid => [(k, updateOcc init fid)]
  | (k', o) :: rest, k, init, fid =>
    if k' = k then (k', updateOcc o fid) :: rest
    else (k', o) :: mapUpsert rest k init fid

/-- Body of the inner double loop of `calculateEntityRelationships` for one
candidate pair `(entity1, entity2, featureId)`: skip equal names, otherwise
bump the canonical accumulator entry. -/
def bump (acc : List (String × CoOcc)) (i : String × String × Nat) : List (String × CoOcc) :=
  if i.1 = i.2.1 then acc
  else mapUpsert acc (pairKey i.1 i.2.1) (initOcc i.1 i.2.1) i.2.2

/-- All index pairs `(i, j)` with `i < j` of one feature group, in loop order,
tagged with the group's feature id. -/
def allPairs (fid : Nat) : List EntityNode → List (String × String × Nat)
  | [] => []
  | e :: rest =>
    rest.map (fun e2 => (e.entity_name, e2.entity_name, fid)) ++ allPairs fid rest

/-- Pair candidates contributed by one group (`if (entities.length < 2) return`). -/
def groupIncs (g : Nat × List EntityNode) : List (String × String × Nat) :=
  if g.2.length < 2 then [] else allPairs g.1 g.2

/-- The flat stream of pair candidates processed by the accumulator, in
processing order. -/
def allIncs (l : List EntityNode) : List (String × String × Nat) :=
  (entitiesByFeature l).flatMap groupIncs

/-- The fully built `coOccurrences` map of
`RelationshipCalculator.calculateEntityRelationships`. -/
def coOccurrences (l : List EntityNode) : List (String × CoOcc) :=
  (entitiesByFeature l).foldl
    (fun acc g => if g.2.length < 2 then acc else (allPairs g.1 g.2).foldl bump acc) []

/-- Final projection of one accumulator entry to an `EntityRelationship`
(`Array.from(occ.shared_feature_ids).map(id => id.toString())`). -/
def relFinalize (o : CoOcc) : EntityRelationship :=
  { entity1 := o.entity1, entity2 := o.entity2, co_occurrence_count := o.count
    shared_feature_ids := o.shared_feature_ids.map (fun n => toString n) }

/-- `RelationshipCalculator.calculateEntityRelationships`, as a pure function
of the fetched mention list. -/
def calculateEntityRelationships (l : List EntityNode) : List EntityRelationship :=
  (coOccurrences l).map (fun p => relFinalize p.2)

/-- The normalized entity type union `'PERSON' | 'LOCATION' | 'ORGANIZATION'`. -/
inductive EntityType where
  | PERSON
  | LOCATION
  | ORGANIZATION
deriving DecidableEq, Repr

/-- `EntityNormalizer.normalizeEntityType`. -/
def normalizeEntityType (entityType : String) : EntityType :=
  if entityType = "" then .ORGANIZATION
  else
    let type := strTrim (strToUpper entityType)
    if type = "PEOPLE" then .PERSON
    else if type = "LOCATIONS" then .LOCATION
    else if type = "ORGANIZATIONS" then .ORGANIZATION
    else if strIncludes type "PERSON" || strIncludes type "PER" || type == "PEOPLE" then
      .PERSON
    else if strIncludes type "LOCATION" || strIncludes type "LOC" ||
        strIncludes type "PLACE" || type == "LOCATIONS" then
      .LOCATION
    else if strIncludes type "ORG" || strIncludes type "COMPANY" ||
        strIncludes type "INSTITUTION" || type == "ORGANIZATIONS" then
      .ORGANIZATION
    else .ORGANIZATION

/-- The node color conditional of `NetworkNodeBuilder.createNetworkNodes`. -/
def entityColor (t : EntityType) : String :=
  match t with
  | .PERSON => "#60a5fa"
  | .LOCATION => "#34d399"
  | .ORGANIZATION => "#f59e0b"

/-- A network node (src/types/database.ts `NetworkNode`), including the
optional position fields used for graph-state caching. -/
structure NetworkNode where
  id : String
  name : String
  type : EntityType
  size : Nat
  color : String
  connections : Nat
  feature_ids : List String
  x : Option Rat := none
  y : Option Rat := none
  fx : Option Rat := none
  fy : Option Rat := none
deriving DecidableEq, Repr

/-- A network link (src/types/database.ts `NetworkLink`). -/
structure NetworkLink where
  source : String
  target : String
  strength : Nat
  shared_feature_ids : List String
deriving DecidableEq, Repr

/-- `{ nodes, links }` as returned by `EntityService.getNetworkData`. -/
structure NetworkData where
  nodes : List NetworkNode
  links : List NetworkLink
deriving DecidableEq, Repr

/-- Entry of the `uniqueEntities` map of `NetworkNodeBuilder`. -/
structure UniqueEntity where
  name : String
  type : String
  feature_ids : List String
deriving DecidableEq, Repr

/-- One step of the `uniqueEntities` grouping: first mention of a name
creates the entry (remembering the first-seen raw type), every mention pushes
its feature id (stringified). -/
def addMention : List UniqueEntity → EntityNode → List UniqueEntity
  | [], e => [⟨e.entity_name, e.entity_type, [toString e.feature_id]⟩]
  | u :: rest, e =>
    if u.name = e.entity_name then
      { u with feature_ids := u.feature_ids ++ [toString e.feature_id] } :: rest
    else u :: addMention rest e

/-- The `uniqueEntities` map of `NetworkNodeBuilder.createNetworkNodes`. -/
def uniqueEntities (l : List EntityNode) : List UniqueEntity :=
  l.foldl addMention []

/-- `connectionCounts.set(name, (connectionCounts.get(name) || 0) + 1)`. -/
def bumpCount (m : List (String × Nat)) (k : String) : List (String × Nat) :=
  mapSet m k ((lookupA k m).getD 0 + 1)

/-- The `connectionCounts` map: every unique entity starts at 0, then each
relationship bumps both of its endpoints. -/
def connectionCounts (l : List EntityNode) : List (String × Nat) :=
  (calculateEntityRelationships l).foldl
    (fun m rel => bumpCount (bumpCount m rel.entity1) rel.entity2)
    ((uniqueEntities l).map (fun u => (u.name, 0)))

/-- `NetworkNodeBuilder.createNetworkNodes`, as a pure function of the
fetched mention list. -/
def createNetworkNodes (l : List EntityNode) : List NetworkNode :=
  (uniqueEntities l).map (fun entity =>
    let normalizedType := normalizeEntityType entity.type
    let connections := (lookupA entity.name (connectionCounts l)).getD 0
    { id := entity.name, name := entity.name, type := normalizedType
      size := max 10 (min 50 (10 + connections * 2))
      color := entityColor normalizedType
      connections := connections, feature_ids := entity.feature_ids })

/-- `NetworkLinkBuilder.createNetworkLinks`. -/
def createNetworkLinks (l : List EntityNode) : List NetworkLink :=
  (calculateEntityRelationships l).map (fun rel =>
    { source := rel.entity1, target := rel.entity2
      strength := rel.co_occurrence_count
      shared_feature_ids := rel.shared_feature_ids })

/-- `EntityService.getNetworkData`, as a pure function of the mention list. -/
def getNetworkData (l : List EntityNode) : NetworkData :=
  { nodes := createNetworkNodes l, links := createNetworkLinks l }

/-- One entry of the `selectedEntities` react-select state
(`{ value, label, type }`). -/
structure SelectedEntity where
  value : String
  label : String
  type : String
deriving DecidableEq, Repr

/-- The active filter state of the `NetworkGraph` component. -/
structure Filters where
  searchTerm : String
  selectedEntityTypes : List EntityType
  minConnections : Nat
  selectedEntities : List SelectedEntity
deriving DecidableEq, Repr

/-- The selected entity names (`selectedEntities.map(e => e.value)`). -/
def selectedNames (F : Filters) : List String :=
  F.selectedEntities.map (fun e => e.value)

/-- Per-node visibility of the `networkData` useMemo when no explicit
selection is active: search, entity-type and minimum-connections filters. -/
def nodeVisible (F : Filters) (node : NetworkNode) : Bool :=
  let searchLower := strToLower F.searchTerm
  let hasSearchTerm := decide (0 < F.searchTerm.length)
  (!(hasSearchTerm && !(strIncludes (strToLower node.name) searchLower))) &&
    F.selectedEntityTypes.contains node.type &&
    (!(decide (node.connections < F.minConnections)))

/-- Selection branch, step 1: `filteredNodes` — the nodes whose name is in
the explicit selection. -/
def selectionFilteredNodes (original : NetworkData) (F : Filters) : List NetworkNode :=
  original.nodes.filter (fun node => (selectedNames F).contains node.name)

/-- Selection branch, step 2: `connectedNodeIds` — the id set of the selected
nodes. -/
def selectionBaseIds (original : NetworkData) (F : Filters) : List String :=
  ((selectionFilteredNodes original F).map (fun n => n.id)).foldl setAdd []

/-- Selection branch, step 3: `filteredLinks` — the links with at least one
endpoint among the selected node ids. -/
def selectionFilteredLinks (original : NetworkData) (F : Filters) : List NetworkLink :=
  original.links.filter (fun link =>
    (selectionBaseIds original F).contains link.source ||
      (selectionBaseIds original F).contains link.target)

/-- Selection branch, step 4: both endpoints of every kept link are added to
the connected id set. -/
def selectionConnectedIds (original : NetworkData) (F : Filters) : List String :=
  (selectionFilteredLinks original F).foldl
    (fun s link => setAdd (setAdd s link.source) link.target)
    (selectionBaseIds original F)

/-- Selection branch, step 5: `allNodes` — every node whose id landed in the
connected id set. -/
def selectionNodes (original : NetworkData) (F : Filters) : List NetworkNode :=
  original.nodes.filter (fun node => (selectionConnectedIds original F).contains node.id)

/-- No-selection branch: `visibleNodes` — the nodes passing the
search/type/min-connections filters. -/
def visibleNodes (original : NetworkData) (F : Filters) : List NetworkNode :=
  original.nodes.filter (nodeVisible F)

/-- No-selection branch: `visibleNodeIds`. -/
def visibleNodeIds (original : NetworkData) (F : Filters) : List String :=
  (visibleNodes original F).map (fun n => n.id)

/-- No-selection branch: `visibleLinks` — links with both endpoints
visible. -/
def visibleLinks (original : NetworkData) (F : Filters) : List NetworkLink :=
  original.links.filter (fun link =>
    (visibleNodeIds original F).contains link.source &&
      (visibleNodeIds original F).contains link.target)

/-- The visibility filter of `NetworkGraph` (the `networkData` useMemo):
empty-graph early return, explicit-selection branch, then the
search/type/min-connections branch with endpoint-visible links. -/
def filterNetwork (original : NetworkData) (F : Filters) : NetworkData :=
  if original.nodes.length = 0 then { nodes := [], links := [] }
  else if 0 < F.selectedEntities.length then
    { nodes := selectionNodes original F, links := selectionFilteredLinks original F }
  else
    { nodes := visibleNodes original F, links := visibleLinks original F }

/-- The saved `GraphState` of `ForceGraph2D` (positions, zoom, center). -/
structure GraphState where
  nodePositions : List (String × Rat × Rat)
  zoomLevel : Rat
  center : Rat × Rat
deriving DecidableEq, Repr

/-- Restore one node from the position cache: a cached entry overwrites `x`
and `y` exactly; a missing entry leaves the node untouched. -/
def applyCachedPositions (positions : List (String × Rat × Rat)) (node : NetworkNode) : NetworkNode :=
  match lookupA node.id positions with
  | some p => { node with x := some p.1, y := some p.2 }
  | none => node

/-- The `nodesWithPositions` useMemo of `ForceGraph2D`. -/
def nodesWithPositions (preserveLayout : Bool) (graphState : Option GraphState)
    (nodes : List NetworkNode) : List NetworkNode :=
  match preserveLayout, graphState with
  | false, _ => nodes
  | true, none => nodes
  | true, some st => nodes.map (applyCachedPositions st.nodePositions)

/-- `graphStats.maxConnections` of `ForceGraph2D`
(`Math.max(...nodes.map(n => n.connections), 1)`, `1` for an empty graph). -/
def maxConnectionsOf (nodes : List NetworkNode) : Nat :=
  if nodes.length = 0 then 1
  else (nodes.map (fun n => n.connections)).foldr max 1

/-- `graphStats.baseSize`. -/
def baseSize : Rat := 30

/-- `graphStats.maxSize`. -/
def maxSize : Rat := 90

/-- The size stored for one node by the `sizeCache` useMemo of
`ForceGraph2D`. -/
def nodeSizeValue (maxConnections : Nat) (node : NetworkNode) : Rat :=
  if maxConnections = 0 then baseSize
  else baseSize + ((node.connections : Rat) / (maxConnections : Rat)) * (maxSize - baseSize)

/-- The `sizeCache` map of `ForceGraph2D`. -/
def sizeCache (nodes : List NetworkNode) : List (String × Rat) :=
  nodes.foldl (fun cache node => mapSet cache node.id (nodeSizeValue (maxConnectionsOf nodes) node)) []

/-- The `(highlightedNode, selectedNode)` click-interaction state of
`NetworkGraph`. -/
structure ClickState where
  highlightedNode : Option NetworkNode
  selectedNode : Option NetworkNode
deriving DecidableEq, Repr

/-- `handleNodeClick` of `NetworkGraph`: a second click on the highlighted
node opens the popup and clears the highlight, any other click highlights the
clicked node and closes the popup. -/
def handleNodeClick (st : ClickState) (node : NetworkNode) : ClickState :=
  match st.highlightedNode with
  | some h =>
    if h.id = node.id then { highlightedNode := none, selectedNode := some node }
    else { highlightedNode := some node, selectedNode := none }
  | none => { highlightedNode := some node, selectedNode := none }

/-- The fixed page size of `EntityFetcher.fetchAllEntities`. -/
def batchSize : Nat := 1000

/-- The paginated fetch loop of `EntityFetcher.fetchAllEntities`. The
external store is modelled as the ordered row table `remaining` (the rows at
offset `pageIdx * batchSize` onwards) together with a page-error oracle
`err`; a page request whose oracle bit is set throws, an empty or short page
ends the loop, a full page recurses on the next offset. -/
def fetchBatches (err : Nat → Bool) (pageIdx : Nat) (remaining : List EntityNode) :
    Except String (List EntityNode) :=
  if err pageIdx then Except.error "Error fetching entities"
  else
    if h1 : (remaining.take batchSize).length = 0 then Except.ok []
    else if h2 : (remaining.take batchSize).length < batchSize then
      Except.ok (remaining.take batchSize)
    else
      match fetchBatches err (pageIdx + 1) (remaining.drop batchSize) with
      | Except.error e => Except.error e
      | Except.ok rest => Except.ok (remaining.take batchSize ++ rest)
termination_by remaining.length
decreasing_by
  simp only [batchSize, List.length_take, List.length_drop] at h1 h2 ⊢
  omega

/-- `EntityFetcher.fetchAllEntities` starting at offset 0. -/
def fetchAllEntities (err : Nat → Bool) (table : List EntityNode) :
    Except String (List EntityNode) :=
  fetchBatches err 0 table

/-- Scenario A mention set of the specification. -/
def scenarioMentions : List EntityNode :=
  [⟨"X", "PERSON", 1⟩, ⟨"Y", "LOCATION", 1⟩, ⟨"X", "PERSON", 2⟩, ⟨"Z", "ORG", 2⟩]

/-- The base graph built from the Scenario A mentions. -/
def scenarioData : NetworkData :=
  getNetworkData scenarioMentions

/-- The identity filter: empty search, all three types, `minConnections = 1`,
no explicit selection. -/
def identityFilters : Filters :=
  { searchTerm := "", selectedEntityTypes := [.PERSON, .LOCATION, .ORGANIZATION]
    minConnections := 1, selectedEntities := [] }

/-- Scenario B filter: `minConnections = 2`, everything else default. -/
def minTwoFilters : Filters :=
  { searchTerm := "", selectedEntityTypes := [.PERSON, .LOCATION, .ORGANIZATION]
    minConnections := 2, selectedEntities := [] }

/-- Scenario C filter: explicit selection `{Y}` while `minConnections = 2`
is otherwise active. -/
def selectYFilters : Filters :=
  { searchTerm := "", selectedEntityTypes := [.PERSON, .LOCATION, .ORGANIZATION]
    minConnections := 2, selectedEntities := [⟨"Y", "Y", "LOCATION"⟩] }

/-- A mention set whose only entity never co-occurs with anything: its node
has `connections = 0`. -/
def isolatedMentions : List EntityNode :=
  [⟨"X", "PERSON", 1⟩]

/-- A mention set in which the entity `A` is mentioned twice inside the same
feature. -/
def duplicateMentions : List EntityNode :=
  [⟨"A", "PERSON", 1⟩, ⟨"B", "PERSON", 1⟩, ⟨"A", "PERSON", 1⟩]

/-- Mentions with pipe characters inside entity names: the pairs
`("a|b", "c")` and `("a", "b|c")` collide on the accumulator key
`"a|b|c"`. -/
def pipeMentions1 : List EntityNode :=
  [⟨"a|b", "ORG", 1⟩, ⟨"c", "ORG", 1⟩, ⟨"a", "ORG", 2⟩, ⟨"b|c", "ORG", 2⟩]

/-- The same mention multiset in reverse order. -/
def pipeMentions2 : List EntityNode :=
  pipeMentions1.reverse

/-- The value-level view of a relationship used for set comparison:
endpoints, weight, and the shared feature ids as a set. -/
def relView (r : EntityRelationship) : String × String × Nat × Finset String :=
  (r.entity1, r.entity2, r.co_occurrence_count, r.shared_feature_ids.toFinset)

/-- The relationship set (up to shared-feature-id order) produced from a
mention list. -/
def relViewSet (l : List EntityNode) : Finset (String × String × Nat × Finset String) :=
  ((calculateEntityRelationships l).map relView).toFinset

/-- A concrete node used to exercise the interaction state machine and the
position cache at specific inputs. -/
def nodeX : NetworkNode :=
  { id := "X", name := "X", type := .PERSON, size := 14, color := "#60a5fa"
    connections := 2, feature_ids := ["1", "2"] }

/-- A second concrete node with a different id. -/
def nodeY : NetworkNode :=
  { id := "Y", name := "Y", type := .LOCATION, size := 12, color := "#34d399"
    connections := 1, feature_ids := ["1"] }

/-- A cached graph state holding the exact position `(10, 20)` for node X
(the Scenario D drop location). -/
def demoGraphState : GraphState :=
  { nodePositions := [("X", (10, 20))], zoomLevel := 1, center := (0, 0) }

/-- The accumulator key of one pair candidate. -/
def keyOfInc (i : String × String × Nat) : String :=
  pairKey i.1 i.2.1

/-- The pair candidates that actually bump the accumulator entry of key `k`:
distinct names and matching canonical key, in processing order. -/
def relevantIncs (k : String) (incs : List (String × String × Nat)) :
    List (String × String × Nat) :=
  incs.filter (fun i => (!(i.1 == i.2.1)) && (keyOfInc i == k))

/-- Replay a stream of bumps against one accumulator entry. -/
def replay (o : Option CoOcc) : List (String × String × Nat) → Option CoOcc
  | [] => o
  | i :: rest =>
    match o with
    | none => replay (some (updateOcc (initOcc i.1 i.2.1) i.2.2)) rest
    | some oc => replay (some (updateOcc oc i.2.2)) rest

/-- A pair candidate whose unordered name pair is exactly `{a, b}`. -/
def canonPred (a b : String) (i : String × String × Nat) : Bool :=
  (i.1 == a && i.2.1 == b) || (i.1 == b && i.2.1 == a)

/-- Number of mentions of the name `a` in a mention list. -/
def cntIn (es : List EntityNode) (a : String) : Nat :=
  es.countP (fun e => e.entity_name == a)

/-- Number of mentions of the name `a` inside feature `f`. -/
def cntNameFeat (l : List EntityNode) (a : String) (f : Nat) : Nat :=
  cntIn (l.filter (fun e => e.feature_id == f)) a

/-- Total number of accumulator increments received by the canonical pair
`(a, b)` over a whole mention list. -/
def pairCount (l : List EntityNode) (a b : String) : Nat :=
  (allIncs l).countP (canonPred a b)

/-- The set of stringified feature ids in which the pair `(a, b)`
co-occurs. -/
def sharedIdSet (l : List EntityNode) (a b : String) : Finset String :=
  (((allIncs l).filter (canonPred a b)).map (fun i => toString i.2.2)).toFinset

/-- A link touches the explicit selection: some selected node of the graph is
one of its endpoints. -/
def touchesSelection (data : NetworkData) (F : Filters) (l : NetworkLink) : Prop :=
  ∃ m ∈ data.nodes, m.name ∈ selectedNames F ∧ (l.source = m.id ∨ l.target = m.id)

/-- A node is directly linked to some selected node of the graph. -/
def linkedToSelection (data : NetworkData) (F : Filters) (n : NetworkNode) : Prop :=
  ∃ l ∈ data.links, ∃ m ∈ data.nodes, m.name ∈ selectedNames F ∧
    ((l.source = m.id ∧ l.target = n.id) ∨ (l.target = m.id ∧ l.source = n.id))

/-! ### Generic helper lemmas -/

theorem contains_iff_mem {α : Type} [DecidableEq α] (l : List α) (a : α) :
    l.contains a = true ↔ a ∈ l := by
  induction l with
  | nil => simp
  | cons b rest ih =>
    simp only [List.contains_cons, Bool.or_eq_true, beq_iff_eq, ih, List.mem_cons]

theorem lookupA_cons {α β : Type} [DecidableEq α] (k k' : α) (v : β) (rest : List (α × β)) :
    lookupA k ((k', v) :: rest) = if k' = k then some v else lookupA k rest := rfl

theorem mem_setAdd {α : Type} [DecidableEq α] (s : List α) (x y : α) :
    y ∈ setAdd s x ↔ y ∈ s ∨ y = x := by
  unfold setAdd
  split
  · rename_i h
    constructor
    · exact fun hy => Or.inl hy
    · rintro (hy | rfl)
      · exact hy
      · exact h
  · simp [List.mem_append]

theorem mem_foldl_setAdd {α β : Type} [DecidableEq α] (f : β → α) (l : List β) :
    ∀ (s : List α) (y : α), y ∈ l.foldl (fun acc b => setAdd acc (f b)) s ↔
      y ∈ s ∨ ∃ b ∈ l, f b = y := by
  induction l with
  | nil => simp
  | cons b rest ih =>
    intro s y
    rw [List.foldl_cons, ih, mem_setAdd]
    constructor
    · rintro ((hy | rfl) | hb)
      · exact Or.inl hy
      · exact Or.inr ⟨b, List.mem_cons_self b rest, rfl⟩
      · rcases hb with ⟨c, hc, rfl⟩
        exact Or.inr ⟨c, List.mem_cons_of_mem b hc, rfl⟩
    · rintro (hy | ⟨c, hc, rfl⟩)
      · exact Or.inl (Or.inl hy)
      · rcases List.mem_cons.mp hc with rfl | hc
        · exact Or.inl (Or.inr rfl)
        · exact Or.inr ⟨c, hc, rfl⟩

theorem length_setAdd_le {α : Type} [DecidableEq α] (s : List α) (x : α) :
    (setAdd s x).length ≤ s.length + 1 := by
  unfold setAdd
  split
  · omega
  · simp

theorem setAdd_ne_nil {α : Type} [DecidableEq α] (s : List α) (x : α) :
    setAdd s x ≠ [] := by
  unfold setAdd
  split
  · rename_i h
    intro hs
    subst hs
    simp at h
  · simp

theorem lookupA_mem {α β : Type} [DecidableEq α] (A : List (α × β)) (k : α) (v : β)
    (h : lookupA k A = some v) : (k, v) ∈ A := by
  induction A with
  | nil => simp [lookupA] at h
  | cons p rest ih =>
    rcases p with ⟨k', v'⟩
    rw [lookupA] at h
    split at h
    · rename_i hk
      cases h
      subst hk
      exact List.mem_cons_self _ _
    · exact List.mem_cons_of_mem _ (ih h)

theorem mem_lookupA {α β : Type} [DecidableEq α] (A : List (α × β)) (k : α) (v : β)
    (hnd : (A.map Prod.fst).Nodup) (h : (k, v) ∈ A) : lookupA k A = some v := by
  induction A with
  | nil => simp at h
  | cons p rest ih =>
    rcases p with ⟨k', v'⟩
    simp only [List.map_cons, List.nodup_cons] at hnd
    rcases List.mem_cons.mp h with heq | hmem
    · cases heq
      simp [lookupA]
    · rw [lookupA]
      split
      · rename_i hk
        exact absurd (List.mem_map.mpr ⟨(k, v), hmem, hk.symm⟩) hnd.1
      · exact ih hnd.2 hmem

/-! ### C1 — co-occurrence increments versus distinct shared features -/

/-- C1: the claim states that each feature group with k distinct entity names
contributes exactly C(k,2) pair-increments — one increment per shared feature
even when an entity is mentioned more than once within the same feature — so
that `co_occurrence_count` equals the number of distinct shared features.
The code instead increments once per index pair of mentions: with `A`
mentioned twice in feature 1 alongside `B` (two distinct names, so C(2,2) = 1
expected increment), the emitted edge carries `co_occurrence_count = 2` while
its `shared_feature_ids` set has exactly one element. -/
theorem c1_duplicate_mention_overcount :
    calculateEntityRelationships duplicateMentions =
      [{ entity1 := "A", entity2 := "B", co_occurrence_count := 2,
         shared_feature_ids := ["1"] }]
    ∧ ((duplicateMentions.map (fun e => e.entity_name)).dedup.length = 2
    ∧ ((allIncs duplicateMentions).filter (fun i => !(i.1 == i.2.1))).length = 2) := by
  decide

/-! ### C8 — the click-interaction state machine -/

/-- C8: clicking while nothing is highlighted, or while a different node is
highlighted, enters Highlighted on the clicked node with the detail popup
closed; clicking the currently highlighted node opens its detail; and a click
can only open the detail popup when the previously highlighted node has the
clicked node's id (detail opens only on two sequential clicks of the same
node). -/
theorem c8_click_state_machine :
    (∀ (st : ClickState) (n : NetworkNode), st.highlightedNode = none →
        handleNodeClick st n = { highlightedNode := some n, selectedNode := none })
    ∧ (∀ (st : ClickState) (n h : NetworkNode), st.highlightedNode = some h → h.id ≠ n.id →
        handleNodeClick st n = { highlightedNode := some n, selectedNode := none })
    ∧ (∀ (st : ClickState) (n h : NetworkNode), st.highlightedNode = some h → h.id = n.id →
        handleNodeClick st n = { highlightedNode := none, selectedNode := some n })
    ∧ (∀ (st : ClickState) (n : NetworkNode), (handleNodeClick st n).selectedNode ≠ none →
        ∃ h, st.highlightedNode = some h ∧ h.id = n.id) := by
  refine ⟨?_, ?_, ?_, ?_⟩
  · intro st n h
    simp [handleNodeClick, h]
  · intro st n h hst hne
    simp [handleNodeClick, hst, hne]
  · intro st n h hst heq
    simp [handleNodeClick, hst, heq]
  · intro st n hsel
    unfold handleNodeClick at hsel
    rcases hst : st.highlightedNode with _ | h
    · rw [hst] at hsel
      simp at hsel
    · rw [hst] at hsel
      by_cases heq : h.id = n.id
      · exact ⟨h, rfl, heq⟩
      · simp [heq] at hsel

/-- C8 witness: from a state highlighting node X, clicking X opens its
detail. -/
theorem c8_click_state_machine_witness :
    handleNodeClick { highlightedNode := some nodeX, selectedNode := none } nodeX =
      { highlightedNode := none, selectedNode := some nodeX } :=
  c8_click_state_machine.2.2.1 { highlightedNode := some nodeX, selectedNode := none }
    nodeX nodeX rfl rfl

/-! ### C5 — exact restoration of cached positions -/

/-- C5: for every node that is visible after a filter change, if the position
cache holds an entry for its id then `nodesWithPositions` hands the layout
exactly the cached coordinates (coordinate-for-coordinate), and nodes without
a cached entry are passed through unchanged for initial placement. -/
theorem c5_cached_positions_restored_exactly :
    ∀ (base : NetworkData) (F : Filters) (st : GraphState) (i : Nat) (n : NetworkNode),
      ((filterNetwork base F).nodes)[i]? = some n →
      ((∀ p : Rat × Rat, lookupA n.id st.nodePositions = some p →
          (nodesWithPositions true (some st) (filterNetwork base F).nodes)[i]? =
            some { n with x := some p.1, y := some p.2 })
        ∧ (lookupA n.id st.nodePositions = none →
          (nodesWithPositions true (some st) (filterNetwork base F).nodes)[i]? = some n)) := by
  intro base F st i n hi
  have hmap : (nodesWithPositions true (some st) (filterNetwork base F).nodes)[i]? =
      Option.map (applyCachedPositions st.nodePositions) ((filterNetwork base F).nodes)[i]? := by
    unfold nodesWithPositions
    exact List.getElem?_map _ _ _
  constructor
  · intro p hp
    rw [hmap, hi]
    simp [applyCachedPositions, hp]
  · intro hp
    rw [hmap, hi]
    simp [applyCachedPositions, hp]

/-- C5 witness: node X stays visible under the identity filter and its cached
position `(10, 20)` is restored exactly. -/
theorem c5_cached_positions_restored_exactly_witness :
    (nodesWithPositions true (some demoGraphState)
        (filterNetwork scenarioData identityFilters).nodes)[0]? =
      some { nodeX with x := some 10, y := some 20 } :=
  (c5_cached_positions_restored_exactly scenarioData identityFilters demoGraphState 0 nodeX
    (by decide)).1 (10, 20) (by decide)

/-! ### C9 — all-or-nothing paginated fetch -/

/-- A successful fetch always returns the full table: no truncated list. -/
theorem fetchBatches_ok_full (err : Nat → Bool) (k : Nat) (remaining : List EntityNode) :
    ∀ l, fetchBatches err k remaining = Except.ok l → l = remaining := by
  refine fetchBatches.induct err
    (fun pageIdx remaining =>
      ∀ l, fetchBatches err pageIdx remaining = Except.ok l → l = remaining)
    ?_ ?_ ?_ ?_ ?_ k remaining
  · intro pageIdx remaining h1 l h
    unfold fetchBatches at h
    rw [if_pos h1] at h
    cases h
  · intro pageIdx remaining h1 h2 l h
    unfold fetchBatches at h
    rw [if_neg h1, dif_pos h2] at h
    cases h
    have hlen : remaining.length = 0 := by
      simp only [List.length_take, batchSize] at h2
      omega
    exact (List.length_eq_zero.mp hlen).symm
  · intro pageIdx remaining h1 h2 h3 l h
    unfold fetchBatches at h
    rw [if_neg h1, dif_neg h2, dif_pos h3] at h
    cases h
    apply List.take_of_length_le
    simp only [List.length_take] at h3
    omega
  · intro pageIdx remaining h1 h2 h3 e herr _ l h
    unfold fetchBatches at h
    rw [if_neg h1, dif_neg h2, dif_neg h3, herr] at h
    cases h
  · intro pageIdx remaining h1 h2 h3 rest hrec ih l h
    unfold fetchBatches at h
    rw [if_neg h1, dif_neg h2, dif_neg h3, hrec] at h
    cases h
    rw [ih rest hrec, List.take_append_drop]

/-- When no requested page errors, the fetch succeeds with the whole table. -/
theorem fetchBatches_ok_of_no_err (err : Nat → Bool) (k : Nat) (remaining : List EntityNode) :
    (∀ j, k ≤ j → j ≤ k + remaining.length / batchSize → err j = false) →
      fetchBatches err k remaining = Except.ok remaining := by
  refine fetchBatches.induct err
    (fun pageIdx remaining =>
      (∀ j, pageIdx ≤ j → j ≤ pageIdx + remaining.length / batchSize → err j = false) →
        fetchBatches err pageIdx remaining = Except.ok remaining)
    ?_ ?_ ?_ ?_ ?_ k remaining
  · intro pageIdx remaining h1 herr
    have hfalse := herr pageIdx (Nat.le_refl _) (Nat.le_add_right _ _)
    rw [hfalse] at h1
    exact Bool.noConfusion h1
  · intro pageIdx remaining h1 h2 _
    unfold fetchBatches
    rw [if_neg h1, dif_pos h2]
    have hlen : remaining.length = 0 := by
      simp only [List.length_take, batchSize] at h2
      omega
    rw [List.length_eq_zero.mp hlen]
  · intro pageIdx remaining h1 h2 h3 _
    unfold fetchBatches
    rw [if_neg h1, dif_neg h2, dif_pos h3]
    rw [List.take_of_length_le]
    simp only [List.length_take] at h3
    omega
  · intro pageIdx remaining h1 h2 h3 e herr ih hno
    exfalso
    have hge : batchSize ≤ remaining.length := by
      simp only [List.length_take] at h3
      omega
    have hdiv : remaining.length / batchSize =
        (remaining.length - batchSize) / batchSize + 1 :=
      Nat.div_eq_sub_div (by simp [batchSize]) hge
    have hok : fetchBatches err (pageIdx + 1) (remaining.drop batchSize) =
        Except.ok (remaining.drop batchSize) := by
      apply ih
      intro j hj1 hj2
      apply hno j (Nat.le_of_succ_le hj1)
      simp only [List.length_drop] at hj2
      omega
    rw [hok] at herr
    cases herr
  · intro pageIdx remaining h1 h2 h3 rest hrec ih hno
    have hge : batchSize ≤ remaining.length := by
      simp only [List.length_take] at h3
      omega
    have hdiv : remaining.length / batchSize =
        (remaining.length - batchSize) / batchSize + 1 :=
      Nat.div_eq_sub_div (by simp [batchSize]) hge
    have hok : fetchBatches err (pageIdx + 1) (remaining.drop batchSize) =
        Except.ok (remaining.drop batchSize) := by
      apply ih
      intro j hj1 hj2
      apply hno j (Nat.le_of_succ_le hj1)
      simp only [List.length_drop] at hj2
      omega
    have hrd : rest = remaining.drop batchSize := by
      rw [hrec] at hok
      cases hok
      rfl
    subst hrd
    unfold fetchBatches
    rw [if_neg h1, dif_neg h2, dif_neg h3, hrec]
    show Except.ok (List.take batchSize remaining ++ List.drop batchSize remaining) =
      Except.ok remaining
    rw [List.take_append_drop]

/-- If any requested page errors, the whole fetch surfaces an error. -/
theorem fetchBatches_err (err : Nat → Bool) (k : Nat) (remaining : List EntityNode) :
    (∃ j, k ≤ j ∧ j ≤ k + remaining.length / batchSize ∧ err j = true) →
      ∃ e, fetchBatches err k remaining = Except.error e := by
  refine fetchBatches.induct err
    (fun pageIdx remaining =>
      (∃ j, pageIdx ≤ j ∧ j ≤ pageIdx + remaining.length / batchSize ∧ err j = true) →
        ∃ e, fetchBatches err pageIdx remaining = Except.error e)
    ?_ ?_ ?_ ?_ ?_ k remaining
  · intro pageIdx remaining h1 _
    refine ⟨"Error fetching entities", ?_⟩
    unfold fetchBatches
    rw [if_pos h1]
  · intro pageIdx remaining h1 h2 herr
    exfalso
    rcases herr with ⟨j, hj1, hj2, hj3⟩
    have hlen : remaining.length = 0 := by
      simp only [List.length_take, batchSize] at h2
      omega
    rw [hlen] at hj2
    have : j = pageIdx := by
      simp only [batchSize] at hj2
      omega
    subst this
    exact h1 hj3
  · intro pageIdx remaining h1 h2 h3 herr
    exfalso
    rcases herr with ⟨j, hj1, hj2, hj3⟩
    have hlt : remaining.length < batchSize := by
      simp only [List.length_take] at h3
      omega
    rw [Nat.div_eq_of_lt hlt] at hj2
    have : j = pageIdx := by omega
    subst this
    exact h1 hj3
  · intro pageIdx remaining h1 h2 h3 e herr _ _
    refine ⟨e, ?_⟩
    unfold fetchBatches
    rw [if_neg h1, dif_neg h2, dif_neg h3, herr]
  · intro pageIdx remaining h1 h2 h3 rest hrec ih herr
    rcases herr with ⟨j, hj1, hj2, hj3⟩
    have hge : batchSize ≤ remaining.length := by
      simp only [List.length_take] at h3
      omega
    have hdiv : remaining.length / batchSize =
        (remaining.length - batchSize) / batchSize + 1 :=
      Nat.div_eq_sub_div (by simp [batchSize]) hge
    have hkj : pageIdx + 1 ≤ j := by
      rcases Nat.lt_or_ge pageIdx j with hlt | hge2
      · omega
      · have : j = pageIdx := by omega
        subst this
        exact absurd hj3 h1
    have hrec2 : ∃ e, fetchBatches err (pageIdx + 1) (remaining.drop batchSize) =
        Except.error e := by
      apply ih
      refine ⟨j, hkj, ?_, hj3⟩
      simp only [List.length_drop]
      omega
    rcases hrec2 with ⟨e2, he2⟩
    rw [he2] at hrec
    cases hrec

/-- C9: the paginated mention fetch is all-or-nothing. A successful result is
always the full row table (never a truncated list); if no requested page
errors the fetch returns the concatenation of the sequential 1000-row pages,
which is the full table; and if any requested page errors the error is
surfaced to the caller and no result is returned. -/
theorem c9_fetch_all_or_nothing :
    ∀ (table : List EntityNode) (err : Nat → Bool),
      (∀ l, fetchAllEntities err table = Except.ok l → l = table)
      ∧ ((∀ k, k ≤ table.length / batchSize → err k = false) →
          fetchAllEntities err table = Except.ok table)
      ∧ ((∃ k, k ≤ table.length / batchSize ∧ err k = true) →
          ∃ e, fetchAllEntities err table = Except.error e) := by
  intro table err
  refine ⟨?_, ?_, ?_⟩
  · intro l h
    exact fetchBatches_ok_full err 0 table l h
  · intro herr
    apply fetchBatches_ok_of_no_err err 0 table
    intro j hj1 hj2
    exact herr j (by omega)
  · intro herr
    apply fetchBatches_err err 0 table
    rcases herr with ⟨k, hk1, hk2⟩
    exact ⟨k, Nat.zero_le k, by omega, hk2⟩

/-- C9 witness: with no page errors the Scenario A table is fetched whole,
and with page 0 erroring the fetch surfaces an error. -/
theorem c9_fetch_all_or_nothing_witness :
    fetchAllEntities (fun _ => false) scenarioMentions = Except.ok scenarioMentions ∧
    ∃ e, fetchAllEntities (fun _ => true) scenarioMentions = Except.error e :=
  ⟨(c9_fetch_all_or_nothing scenarioMentions (fun _ => false)).2.1 (by intro k hk; rfl),
   (c9_fetch_all_or_nothing scenarioMentions (fun _ => true)).2.2 ⟨0, by decide, rfl⟩⟩

/-! ### Visibility filter lemmas -/

theorem string_length_eq_zero_iff (s : String) : s.length = 0 ↔ s = "" := by
  constructor
  · intro h
    exact String.toList_inj.mp (List.length_eq_zero.mp h)
  · intro h
    rw [h]
    rfl

theorem mem_foldl_setAdd_id {α : Type} [DecidableEq α] (l : List α) :
    ∀ (s : List α) (y : α), y ∈ l.foldl setAdd s ↔ y ∈ s ∨ y ∈ l := by
  induction l with
  | nil => simp
  | cons b rest ih =>
    intro s y
    rw [List.foldl_cons, ih, mem_setAdd]
    simp only [List.mem_cons]
    constructor
    · rintro ((hy | rfl) | hb)
      · exact Or.inl hy
      · exact Or.inr (Or.inl rfl)
      · exact Or.inr (Or.inr hb)
    · rintro (hy | rfl | hb)
      · exact Or.inl (Or.inl hy)
      · exact Or.inl (Or.inr rfl)
      · exact Or.inr hb

theorem mem_foldl_setAdd_endpoints (l : List NetworkLink) :
    ∀ (s : List String) (y : String),
      y ∈ l.foldl (fun s link => setAdd (setAdd s link.source) link.target) s ↔
        y ∈ s ∨ ∃ link ∈ l, y = link.source ∨ y = link.target := by
  induction l with
  | nil => simp
  | cons b rest ih =>
    intro s y
    rw [List.foldl_cons, ih, mem_setAdd, mem_setAdd]
    constructor
    · rintro (((hy | rfl) | rfl) | hb)
      · exact Or.inl hy
      · exact Or.inr ⟨b, List.mem_cons_self b rest, Or.inl rfl⟩
      · exact Or.inr ⟨b, List.mem_cons_self b rest, Or.inr rfl⟩
      · rcases hb with ⟨link, hlink, hcase⟩
        exact Or.inr ⟨link, List.mem_cons_of_mem b hlink, hcase⟩
    · rintro (hy | ⟨link, hlink, hcase⟩)
      · exact Or.inl (Or.inl (Or.inl hy))
      · rcases List.mem_cons.mp hlink with rfl | hlink
        · rcases hcase with rfl | rfl
          · exact Or.inl (Or.inl (Or.inr rfl))
          · exact Or.inl (Or.inr rfl)
        · exact Or.inr ⟨link, hlink, hcase⟩


/-- The per-node visibility boolean, characterized the way the specification
states it. -/
theorem nodeVisible_iff (F : Filters) (n : NetworkNode) :
    nodeVisible F n = true ↔
      (F.searchTerm = "" ∨ strIncludes (strToLower n.name) (strToLower F.searchTerm) = true)
      ∧ n.type ∈ F.selectedEntityTypes ∧ F.minConnections ≤ n.connections := by
  unfold nodeVisible
  simp only [Bool.and_eq_true, Bool.not_eq_true', Bool.and_eq_false_iff,
    decide_eq_false_iff_not, Bool.not_eq_false, decide_eq_true_eq, Nat.not_lt,
    contains_iff_mem]
  constructor
  · rintro ⟨⟨hsearch, htype⟩, hconn⟩
    refine ⟨?_, htype, hconn⟩
    rcases hsearch with hlen | hinc
    · exact Or.inl ((string_length_eq_zero_iff F.searchTerm).mp (by omega))
    · exact Or.inr (by simpa using hinc)
  · rintro ⟨hsearch, htype, hconn⟩
    refine ⟨⟨?_, htype⟩, hconn⟩
    rcases hsearch with hempty | hinc
    · left
      rw [hempty]
      decide
    · exact Or.inr (by simpa using hinc)

/-- With no explicit selection, the visible node list is the
`nodeVisible`-filter of the base nodes (also through the empty-graph early
return). -/
theorem filterNetwork_nodes_no_selection (data : NetworkData) (F : Filters)
    (hsel : F.selectedEntities = []) :
    (filterNetwork data F).nodes = data.nodes.filter (nodeVisible F) := by
  unfold filterNetwork
  split
  · rename_i h
    rw [List.length_eq_zero.mp h]
    rfl
  · rw [if_neg]
    · rfl
    · rw [hsel]
      simp

/-- With no explicit selection, the visible link list keeps exactly the links
of the base graph whose two endpoints are ids of visible nodes. -/
theorem filterNetwork_links_no_selection (data : NetworkData) (F : Filters)
    (hsel : F.selectedEntities = []) :
    (filterNetwork data F).links = data.links.filter (fun link =>
      ((data.nodes.filter (nodeVisible F)).map (fun n => n.id)).contains link.source &&
        ((data.nodes.filter (nodeVisible F)).map (fun n => n.id)).contains link.target) := by
  unfold filterNetwork
  split
  · rename_i h
    rw [List.length_eq_zero.mp h]
    simp [List.filter_eq_nil_iff]
  · rw [if_neg]
    · rfl
    · rw [hsel]
      simp

/-! ### C2 — the no-selection visibility rule -/

/-- C2: with an empty explicit selection a node is visible iff the search
text is empty or case-insensitively contained in its name, AND its type is in
the allowed type set, AND its connection count is at least `minConnections`;
a link is visible iff both endpoint ids belong to visible nodes. In
particular, `minConnections = 2` on the Scenario A graph leaves only node X
visible and no visible links. -/
theorem c2_empty_selection_visibility :
    (∀ (data : NetworkData) (F : Filters), F.selectedEntities = [] →
      (∀ n, n ∈ (filterNetwork data F).nodes ↔
        n ∈ data.nodes ∧
          (F.searchTerm = "" ∨
            strIncludes (strToLower n.name) (strToLower F.searchTerm) = true) ∧
          n.type ∈ F.selectedEntityTypes ∧ F.minConnections ≤ n.connections)
      ∧ (∀ l, l ∈ (filterNetwork data F).links ↔
        l ∈ data.links ∧
          l.source ∈ ((filterNetwork data F).nodes.map (fun n => n.id)) ∧
          l.target ∈ ((filterNetwork data F).nodes.map (fun n => n.id))))
    ∧ ((filterNetwork scenarioData minTwoFilters).nodes.map (fun n => n.name) = ["X"]
      ∧ (filterNetwork scenarioData minTwoFilters).links = []) := by
  constructor
  · intro data F hsel
    constructor
    · intro n
      rw [filterNetwork_nodes_no_selection data F hsel, List.mem_filter, nodeVisible_iff]
    · intro l
      rw [filterNetwork_links_no_selection data F hsel,
        filterNetwork_nodes_no_selection data F hsel, List.mem_filter]
      simp only [Bool.and_eq_true, contains_iff_mem]
  · exact ⟨by decide, by decide⟩

/-- C2 witness: on the Scenario A graph with `minConnections = 2`, node X
satisfies the visibility characterization. -/
theorem c2_empty_selection_visibility_witness :
    nodeX ∈ (filterNetwork scenarioData minTwoFilters).nodes ↔
      nodeX ∈ scenarioData.nodes ∧
        (minTwoFilters.searchTerm = "" ∨
          strIncludes (strToLower nodeX.name) (strToLower minTwoFilters.searchTerm) = true) ∧
        nodeX.type ∈ minTwoFilters.selectedEntityTypes ∧
        minTwoFilters.minConnections ≤ nodeX.connections :=
  (c2_empty_selection_visibility.1 scenarioData minTwoFilters rfl).1 nodeX

/-! ### C3 — the identity filter and isolated nodes -/

/-- C3 counterexample: the base graph built from a single mention has one
node (with `connections = 0`), but the identity filter (empty search, all
three types, `minConnections = 1`, empty selection) hides it, so the claimed
restoration of the full base set fails. -/
theorem c3_identity_filter_counterexample :
    (getNetworkData isolatedMentions).nodes.length = 1 ∧
    (filterNetwork (getNetworkData isolatedMentions) identityFilters).nodes = [] := by
  decide

/-- Under the identity filter the per-node visibility test reduces to having
at least one connection. -/
theorem nodeVisible_identity (n : NetworkNode) :
    nodeVisible identityFilters n = decide (1 ≤ n.connections) := by
  by_cases h : 1 ≤ n.connections
  · have h1 : nodeVisible identityFilters n = true := by
      apply (nodeVisible_iff _ _).mpr
      refine ⟨Or.inl rfl, ?_, h⟩
      cases n.type <;> simp [identityFilters]
    rw [h1, decide_eq_true h]
  · have h1 : nodeVisible identityFilters n = false :=
      Bool.eq_false_iff.mpr (fun hv => h ((nodeVisible_iff _ _).mp hv).2.2)
    rw [h1, decide_eq_false h]

/-- C3 amended: applying the identity filter makes visible exactly the nodes
with at least one connection (so the full base set is restored only when no
node is isolated), together with the links whose both endpoints are such
nodes; and applying the identity filter twice yields the same visible node
and link sets as applying it once. -/
theorem c3_identity_filter_amended (data : NetworkData) :
    ((filterNetwork data identityFilters).nodes =
        data.nodes.filter (fun n => decide (1 ≤ n.connections)))
    ∧ ((filterNetwork data identityFilters).links =
        data.links.filter (fun link =>
          ((data.nodes.filter (fun n => decide (1 ≤ n.connections))).map
              (fun n => n.id)).contains link.source &&
            ((data.nodes.filter (fun n => decide (1 ≤ n.connections))).map
              (fun n => n.id)).contains link.target))
    ∧ (filterNetwork (filterNetwork data identityFilters) identityFilters).nodes =
        (filterNetwork data identityFilters).nodes
    ∧ (filterNetwork (filterNetwork data identityFilters) identityFilters).links =
        (filterNetwork data identityFilters).links := by
  have hnodes : ∀ d : NetworkData, (filterNetwork d identityFilters).nodes =
      d.nodes.filter (fun n => decide (1 ≤ n.connections)) := by
    intro d
    rw [filterNetwork_nodes_no_selection d identityFilters rfl]
    exact List.filter_congr (fun x _ => nodeVisible_identity x)
  have hfix : ∀ d : NetworkData, d.nodes.filter (nodeVisible identityFilters) =
      d.nodes.filter (fun n => decide (1 ≤ n.connections)) :=
    fun d => List.filter_congr (fun x _ => nodeVisible_identity x)
  have hlinks : ∀ d : NetworkData, (filterNetwork d identityFilters).links =
      d.links.filter (fun link =>
        ((d.nodes.filter (fun n => decide (1 ≤ n.connections))).map
            (fun n => n.id)).contains link.source &&
          ((d.nodes.filter (fun n => decide (1 ≤ n.connections))).map
            (fun n => n.id)).contains link.target) := by
    intro d
    rw [filterNetwork_links_no_selection d identityFilters rfl, hfix d]
  have hdup : ∀ (l : List NetworkNode),
      (l.filter (fun n => decide (1 ≤ n.connections))).filter
          (fun n => decide (1 ≤ n.connections)) =
        l.filter (fun n => decide (1 ≤ n.connections)) := by
    intro l
    rw [List.filter_filter]
    exact List.filter_congr (fun x _ => by rw [Bool.and_self])
  refine ⟨hnodes data, hlinks data, ?_, ?_⟩
  · rw [hnodes (filterNetwork data identityFilters), hnodes data, hdup]
  · rw [hlinks (filterNetwork data identityFilters), hnodes data, hdup, hlinks data,
      List.filter_filter]
    exact List.filter_congr (fun x _ => by rw [Bool.and_self])

/-! ### C4 — the explicit-selection branch -/

/-- C4: when the explicit selection is non-empty the filter returns exactly
the selected nodes together with every node directly linked to a selected
node, and exactly the links having at least one endpoint among the selected
nodes, regardless of the other filters. In particular, selecting `{Y}` on
the Scenario A graph (with `minConnections = 2` otherwise active) yields the
visible nodes X and Y and the single link (X, Y). -/
theorem c4_selection_filter :
    (∀ (data : NetworkData) (F : Filters), (∀ n ∈ data.nodes, n.id = n.name) →
      F.selectedEntities ≠ [] →
      (∀ n, n ∈ (filterNetwork data F).nodes ↔
        n ∈ data.nodes ∧ (n.name ∈ selectedNames F ∨ linkedToSelection data F n))
      ∧ (∀ l, l ∈ (filterNetwork data F).links ↔
        l ∈ data.links ∧ touchesSelection data F l))
    ∧ ((filterNetwork scenarioData selectYFilters).nodes.map (fun n => n.name) = ["X", "Y"]
      ∧ (filterNetwork scenarioData selectYFilters).links =
          [{ source := "X", target := "Y", strength := 1, shared_feature_ids := ["1"] }]) := by
  constructor
  · intro data F hid hsel
    by_cases hempty : data.nodes.length = 0
    · have hnil : data.nodes = [] := List.length_eq_zero.mp hempty
      have hfe : filterNetwork data F = { nodes := [], links := [] } := by
        unfold filterNetwork
        rw [if_pos hempty]
      constructor
      · intro n
        rw [hfe]
        simp [hnil]
      · intro l
        rw [hfe]
        simp [touchesSelection, hnil]
    · have hbr : filterNetwork data F =
          { nodes := selectionNodes data F, links := selectionFilteredLinks data F } := by
        unfold filterNetwork
        rw [if_neg hempty, if_pos (List.length_pos.mpr hsel)]
      have hbase : ∀ x, x ∈ selectionBaseIds data F ↔
          ∃ m ∈ data.nodes, m.name ∈ selectedNames F ∧ m.id = x := by
        intro x
        unfold selectionBaseIds selectionFilteredNodes
        rw [mem_foldl_setAdd_id]
        simp only [List.not_mem_nil, false_or, List.mem_map, List.mem_filter,
          contains_iff_mem]
        constructor
        · rintro ⟨m, ⟨hm, hmsel⟩, hmid⟩
          exact ⟨m, hm, hmsel, hmid⟩
        · rintro ⟨m, hm, hmsel, hmid⟩
          exact ⟨m, ⟨hm, hmsel⟩, hmid⟩
      have hlinks : ∀ l, l ∈ selectionFilteredLinks data F ↔
          l ∈ data.links ∧ touchesSelection data F l := by
        intro l
        unfold selectionFilteredLinks
        rw [List.mem_filter]
        simp only [Bool.or_eq_true, contains_iff_mem]
        constructor
        · rintro ⟨hl, hsrc | htgt⟩
          · rcases (hbase l.source).mp hsrc with ⟨m, hm, hmsel, hmid⟩
            exact ⟨hl, m, hm, hmsel, Or.inl hmid.symm⟩
          · rcases (hbase l.target).mp htgt with ⟨m, hm, hmsel, hmid⟩
            exact ⟨hl, m, hm, hmsel, Or.inr hmid.symm⟩
        · rintro ⟨hl, m, hm, hmsel, hcase | hcase⟩
          · exact ⟨hl, Or.inl ((hbase l.source).mpr ⟨m, hm, hmsel, hcase.symm⟩)⟩
          · exact ⟨hl, Or.inr ((hbase l.target).mpr ⟨m, hm, hmsel, hcase.symm⟩)⟩
      have hconn : ∀ x, x ∈ selectionConnectedIds data F ↔
          (∃ m ∈ data.nodes, m.name ∈ selectedNames F ∧ m.id = x) ∨
            ∃ l ∈ selectionFilteredLinks data F, x = l.source ∨ x = l.target := by
        intro x
        unfold selectionConnectedIds
        rw [mem_foldl_setAdd_endpoints, hbase]
      constructor
      · intro n
        rw [hbr]
        show n ∈ selectionNodes data F ↔ _
        unfold selectionNodes
        rw [List.mem_filter]
        simp only [contains_iff_mem]
        constructor
        · rintro ⟨hn, hnid⟩
          refine ⟨hn, ?_⟩
          rcases (hconn n.id).mp hnid with ⟨m, hm, hmsel, hmid⟩ | ⟨l, hl, hcase⟩
          · left
            rw [hid n hn] at hmid
            rw [← hmid, hid m hm]
            exact hmsel
          · rcases (hlinks l).mp hl with ⟨hldata, m, hm, hmsel, hmcase⟩
            rcases hcase with hns | hnt
            · rcases hmcase with hms | hmt
              · left
                have : m.id = n.id := by rw [← hms, ← hns]
                rw [hid n hn] at this
                rw [← this, hid m hm]
                exact hmsel
              · right
                exact ⟨l, hldata, m, hm, hmsel, Or.inr ⟨hmt, hns.symm⟩⟩
            · rcases hmcase with hms | hmt
              · right
                exact ⟨l, hldata, m, hm, hmsel, Or.inl ⟨hms, hnt.symm⟩⟩
              · left
                have : m.id = n.id := by rw [← hmt, ← hnt]
                rw [hid n hn] at this
                rw [← this, hid m hm]
                exact hmsel
        · rintro ⟨hn, hnsel | hnlinked⟩
          · refine ⟨hn, (hconn n.id).mpr (Or.inl ⟨n, hn, hnsel, rfl⟩)⟩
          · rcases hnlinked with ⟨l, hl, m, hm, hmsel, hmcase⟩
            refine ⟨hn, (hconn n.id).mpr (Or.inr ⟨l, ?_, ?_⟩)⟩
            · apply (hlinks l).mpr
              refine ⟨hl, m, hm, hmsel, ?_⟩
              rcases hmcase with ⟨hms, _⟩ | ⟨hmt, _⟩
              · exact Or.inl hms
              · exact Or.inr hmt
            · rcases hmcase with ⟨_, hnt⟩ | ⟨_, hns⟩
              · exact Or.inr hnt.symm
              · exact Or.inl hns.symm
      · intro l
        rw [hbr]
        exact hlinks l
  · exact ⟨by decide, by decide⟩

/-- C4 witness: the selection-branch characterization instantiated on the
Scenario A graph with selection `{Y}`. -/
theorem c4_selection_filter_witness :
    (∀ n, n ∈ (filterNetwork scenarioData selectYFilters).nodes ↔
      n ∈ scenarioData.nodes ∧
        (n.name ∈ selectedNames selectYFilters ∨
          linkedToSelection scenarioData selectYFilters n))
    ∧ (∀ l, l ∈ (filterNetwork scenarioData selectYFilters).links ↔
      l ∈ scenarioData.links ∧ touchesSelection scenarioData selectYFilters l) :=
  c4_selection_filter.1 scenarioData selectYFilters (by decide) (by decide)

/-! ### C7 — visual size and color -/

theorem lookupA_mapSet {α β : Type} [DecidableEq α] (m : List (α × β)) (k k' : α) (v : β) :
    lookupA k (mapSet m k' v) = if k' = k then some v else lookupA k m := by
  induction m with
  | nil =>
    unfold mapSet lookupA
    split <;> rfl
  | cons p rest ih =>
    rcases p with ⟨a, b⟩
    unfold mapSet
    split
    · rename_i ha
      subst ha
      unfold lookupA
      split <;> rfl
    · rename_i ha
      unfold lookupA
      split
      · rename_i hak
        rw [if_neg]
        intro hk
        exact ha (hk.trans hak.symm).symm
      · exact ih

theorem lookupA_foldl_mapSet_not_mem {γ α β : Type} [DecidableEq α]
    (key : γ → α) (val : γ → β) :
    ∀ (l : List γ) (m : List (α × β)) (k : α), k ∉ l.map key →
      lookupA k (l.foldl (fun acc x => mapSet acc (key x) (val x)) m) = lookupA k m := by
  intro l
  induction l with
  | nil => intro m k _; rfl
  | cons a rest ih =>
    intro m k hk
    simp only [List.map_cons, List.mem_cons, not_or] at hk
    rw [List.foldl_cons, ih _ k (by simpa using hk.2), lookupA_mapSet, if_neg]
    intro h
    exact hk.1 h.symm

theorem lookupA_foldl_mapSet_of_nodup {γ α β : Type} [DecidableEq α]
    (key : γ → α) (val : γ → β) :
    ∀ (l : List γ) (m : List (α × β)) (c : γ), (l.map key).Nodup → c ∈ l →
      lookupA (key c) (l.foldl (fun acc x => mapSet acc (key x) (val x)) m) = some (val c) := by
  intro l
  induction l with
  | nil => intro m c _ hc; simp at hc
  | cons a rest ih =>
    intro m c hnd hc
    simp only [List.map_cons, List.nodup_cons] at hnd
    rw [List.foldl_cons]
    rcases List.mem_cons.mp hc with rfl | hc
    · rw [lookupA_foldl_mapSet_not_mem key val rest _ _ hnd.1, lookupA_mapSet, if_pos rfl]
    · exact ih _ c hnd.2 hc

theorem le_foldr_max (l : List Nat) (b : Nat) : ∀ x ∈ l, x ≤ l.foldr max b := by
  induction l with
  | nil => intro x hx; simp at hx
  | cons a rest ih =>
    intro x hx
    rcases List.mem_cons.mp hx with rfl | hx
    · exact Nat.le_max_left _ _
    · exact Nat.le_trans (ih x hx) (Nat.le_max_right _ _)

theorem base_le_foldr_max (l : List Nat) (b : Nat) : b ≤ l.foldr max b := by
  induction l with
  | nil => exact Nat.le_refl b
  | cons a rest ih => exact Nat.le_trans ih (Nat.le_max_right _ _)

/-- The graph-wide maximum connection count is at least 1. -/
theorem one_le_maxConnectionsOf (nodes : List NetworkNode) : 1 ≤ maxConnectionsOf nodes := by
  unfold maxConnectionsOf
  split
  · exact Nat.le_refl 1
  · exact base_le_foldr_max _ 1

/-- Every node's connection count is bounded by the graph-wide maximum. -/
theorem connections_le_maxConnectionsOf (nodes : List NetworkNode) (n : NetworkNode)
    (hn : n ∈ nodes) : n.connections ≤ maxConnectionsOf nodes := by
  unfold maxConnectionsOf
  split
  · rename_i h
    rw [List.length_eq_zero.mp h] at hn
    simp at hn
  · exact le_foldr_max _ 1 n.connections (List.mem_map.mpr ⟨n, hn, rfl⟩)

/-- C7: for every node of the graph handed to the renderer, the cached visual
size is exactly `baseSize + (connections / maxConnections) * (maxSize -
baseSize)` — a pure function of the node's connection count relative to the
graph-wide maximum — and that value always lies in the clamp interval
`[baseSize, maxSize]`; and every node built by the graph-model builder
carries a color that is a fixed palette lookup determined solely by its
normalized type. -/
theorem c7_visual_attributes :
    (∀ (nodes : List NetworkNode) (n : NetworkNode), (nodes.map (fun x => x.id)).Nodup →
      n ∈ nodes →
      lookupA n.id (sizeCache nodes) =
        some (baseSize + ((n.connections : Rat) / (maxConnectionsOf nodes : Rat)) *
          (maxSize - baseSize))
      ∧ baseSize ≤ baseSize + ((n.connections : Rat) / (maxConnectionsOf nodes : Rat)) *
          (maxSize - baseSize)
      ∧ baseSize + ((n.connections : Rat) / (maxConnectionsOf nodes : Rat)) *
          (maxSize - baseSize) ≤ maxSize)
    ∧ (∀ (l : List EntityNode) (n : NetworkNode), n ∈ createNetworkNodes l →
        n.color = entityColor n.type) := by
  constructor
  · intro nodes n hnd hn
    have hmax1 : 1 ≤ maxConnectionsOf nodes := one_le_maxConnectionsOf nodes
    have hmaxne : maxConnectionsOf nodes ≠ 0 := by omega
    have hlookup : lookupA n.id (sizeCache nodes) =
        some (nodeSizeValue (maxConnectionsOf nodes) n) := by
      unfold sizeCache
      exact lookupA_foldl_mapSet_of_nodup (fun x => x.id)
        (fun x => nodeSizeValue (maxConnectionsOf nodes) x) nodes [] n hnd hn
    have hval : nodeSizeValue (maxConnectionsOf nodes) n =
        baseSize + ((n.connections : Rat) / (maxConnectionsOf nodes : Rat)) *
          (maxSize - baseSize) := by
      unfold nodeSizeValue
      rw [if_neg hmaxne]
    have hposmax : (0 : Rat) < (maxConnectionsOf nodes : Rat) := by
      exact_mod_cast Nat.lt_of_lt_of_le Nat.zero_lt_one hmax1
    have hratio0 : (0 : Rat) ≤ (n.connections : Rat) / (maxConnectionsOf nodes : Rat) :=
      div_nonneg (by positivity) (le_of_lt hposmax)
    have hratio1 : (n.connections : Rat) / (maxConnectionsOf nodes : Rat) ≤ 1 := by
      rw [div_le_one hposmax]
      exact_mod_cast connections_le_maxConnectionsOf nodes n hn
    refine ⟨hlookup.trans (by rw [hval]), ?_, ?_⟩
    · have : (0 : Rat) ≤ ((n.connections : Rat) / (maxConnectionsOf nodes : Rat)) *
          (maxSize - baseSize) := by
        apply mul_nonneg hratio0
        norm_num [maxSize, baseSize]
      linarith
    · have : ((n.connections : Rat) / (maxConnectionsOf nodes : Rat)) *
          (maxSize - baseSize) ≤ maxSize - baseSize := by
        have h60 : (0 : Rat) ≤ maxSize - baseSize := by norm_num [maxSize, baseSize]
        calc ((n.connections : Rat) / (maxConnectionsOf nodes : Rat)) * (maxSize - baseSize)
            ≤ 1 * (maxSize - baseSize) := mul_le_mul_of_nonneg_right hratio1 h60
          _ = maxSize - baseSize := one_mul _
      linarith
  · intro l n hn
    unfold createNetworkNodes at hn
    rcases List.mem_map.mp hn with ⟨u, _, hu⟩
    rw [← hu]

/-- C7 witness: node X of the Scenario A graph gets the exact relative size
`30 + (2/2) * 60 = 90`, inside the clamp interval, and carries the palette
color of its type. -/
theorem c7_visual_attributes_witness :
    (lookupA nodeX.id (sizeCache scenarioData.nodes) =
        some (baseSize + ((nodeX.connections : Rat) / (maxConnectionsOf scenarioData.nodes : Rat)) *
          (maxSize - baseSize))
      ∧ baseSize ≤ baseSize +
          ((nodeX.connections : Rat) / (maxConnectionsOf scenarioData.nodes : Rat)) *
          (maxSize - baseSize)
      ∧ baseSize + ((nodeX.connections : Rat) / (maxConnectionsOf scenarioData.nodes : Rat)) *
          (maxSize - baseSize) ≤ maxSize)
    ∧ nodeX.color = entityColor nodeX.type :=
  ⟨c7_visual_attributes.1 scenarioData.nodes nodeX (by decide) (by decide),
   c7_visual_attributes.2 scenarioMentions nodeX (by decide)⟩

/-! ### String order bridge -/

theorem charsLt_iff (as : List Char) : ∀ bs : List Char,
    charsLt as bs = true ↔ List.Lex (fun c d => c < d) as bs := by
  induction as with
  | nil =>
    intro bs
    cases bs with
    | nil =>
      simp only [charsLt]
      constructor
      · intro h
        cases h
      · intro h
        cases h
    | cons b bs =>
      simp only [charsLt]
      exact ⟨fun _ => List.Lex.nil, fun _ => trivial⟩
  | cons a as ih =>
    intro bs
    cases bs with
    | nil =>
      simp only [charsLt]
      constructor
      · intro h
        cases h
      · intro h
        cases h
    | cons b bs =>
      simp only [charsLt]
      by_cases hab : a = b
      · subst hab
        rw [if_pos rfl, ih bs, List.Lex.cons_iff]
      · rw [if_neg hab]
        constructor
        · intro h
          exact List.Lex.rel (of_decide_eq_true h)
        · intro h
          cases h with
          | cons h => exact absurd rfl hab
          | rel h => exact decide_eq_true h

theorem strLt_iff_lt (a b : String) : strLt a b = true ↔ a < b := by
  rw [String.lt_iff_toList_lt]
  exact charsLt_iff a.data b.data

theorem strLt_ne (a b : String) (h : strLt a b = true) : a ≠ b :=
  ne_of_lt ((strLt_iff_lt a b).mp h)

theorem strLt_of_ne (a b : String) (h : a ≠ b) (h2 : ¬ strLt a b = true) :
    strLt b a = true := by
  rcases Ne.lt_or_lt h with hlt | hlt
  · exact absurd ((strLt_iff_lt a b).mpr hlt) h2
  · exact (strLt_iff_lt b a).mpr hlt

theorem strLt_asymm (a b : String) (h : strLt a b = true) : ¬ strLt b a = true := by
  intro h2
  exact absurd ((strLt_iff_lt b a).mp h2) (lt_asymm ((strLt_iff_lt a b).mp h))

/-- The sorted pair of two distinct names is strictly ordered. -/
theorem sortPair_strLt (a b : String) (h : a ≠ b) :
    strLt (sortPair a b).1 (sortPair a b).2 = true := by
  unfold sortPair
  split
  · rename_i hlt
    exact hlt
  · rename_i hlt
    exact strLt_of_ne a b h hlt

theorem sortPair_of_strLt (a b : String) (h : strLt a b = true) :
    sortPair a b = (a, b) := by
  unfold sortPair
  rw [if_pos h]

theorem sortPair_swap_of_strLt (a b : String) (h : strLt a b = true) :
    sortPair b a = (a, b) := by
  unfold sortPair
  rw [if_neg (strLt_asymm a b h)]

/-! ### The co-occurrence accumulator, characterized -/

/-- One group's contribution to the accumulator fold. -/
theorem foldl_groups_eq (gs : List (Nat × List EntityNode)) :
    ∀ acc, gs.foldl
        (fun acc g => if g.2.length < 2 then acc else (allPairs g.1 g.2).foldl bump acc) acc =
      (gs.flatMap groupIncs).foldl bump acc := by
  induction gs with
  | nil => intro acc; rfl
  | cons g rest ih =>
    intro acc
    rw [List.foldl_cons, ih, List.flatMap_cons, List.foldl_append]
    congr 1
    show (if g.2.length < 2 then acc else (allPairs g.1 g.2).foldl bump acc) =
      (groupIncs g).foldl bump acc
    unfold groupIncs
    split
    · rfl
    · rfl

/-- The nested group/pair loops of the calculator are one flat fold of
`bump` over the pair-candidate stream. -/
theorem coOccurrences_eq_foldl (l : List EntityNode) :
    coOccurrences l = (allIncs l).foldl bump [] := by
  unfold coOccurrences allIncs
  exact foldl_groups_eq (entitiesByFeature l) []

theorem lookupA_mapUpsert (acc : List (String × CoOcc)) (k key : String) (init : CoOcc)
    (fid : Nat) :
    lookupA k (mapUpsert acc key init fid) =
      if key = k then some (updateOcc ((lookupA k acc).getD init) fid)
      else lookupA k acc := by
  induction acc with
  | nil =>
    unfold mapUpsert lookupA
    split <;> rfl
  | cons p rest ih =>
    rcases p with ⟨k', o⟩
    unfold mapUpsert
    split
    · rename_i hk
      subst hk
      by_cases hkk : k' = k
      · rw [lookupA_cons, if_pos hkk, if_pos hkk, lookupA_cons, if_pos hkk]
        rfl
      · rw [lookupA_cons, if_neg hkk, if_neg hkk, lookupA_cons, if_neg hkk]
    · rename_i hk
      by_cases hkk : k' = k
      · rw [lookupA_cons, if_pos hkk, if_neg (fun h => hk (hkk.trans h.symm)),
          lookupA_cons, if_pos hkk]
      · rw [lookupA_cons, if_neg hkk, ih, lookupA_cons, if_neg hkk]

theorem lookupA_foldl_bump (incs : List (String × String × Nat)) :
    ∀ (acc : List (String × CoOcc)) (k : String),
      lookupA k (incs.foldl bump acc) = replay (lookupA k acc) (relevantIncs k incs) := by
  induction incs with
  | nil => intro acc k; rfl
  | cons i rest ih =>
    intro acc k
    rw [List.foldl_cons, ih]
    unfold relevantIncs at *
    rw [List.filter_cons]
    by_cases heq : i.1 = i.2.1
    · have hpred : ((!(i.1 == i.2.1)) && (keyOfInc i == k)) = false := by
        simp [heq]
      rw [hpred]
      simp only [Bool.false_eq_true, if_false]
      have hbump : bump acc i = acc := by
        unfold bump
        rw [if_pos heq]
      rw [hbump]
    · by_cases hkey : keyOfInc i = k
      · have hpred : ((!(i.1 == i.2.1)) && (keyOfInc i == k)) = true := by
          simp [heq, hkey]
        rw [hpred]
        simp only [if_true]
        have hbump : bump acc i = mapUpsert acc (keyOfInc i) (initOcc i.1 i.2.1) i.2.2 := by
          unfold bump keyOfInc
          rw [if_neg heq]
        rw [hbump, lookupA_mapUpsert, if_pos hkey]
        rcases hl : lookupA k acc with _ | o
        · simp only [Option.getD_none]
          rfl
        · simp only [Option.getD_some]
          rfl
      · have hpred : ((!(i.1 == i.2.1)) && (keyOfInc i == k)) = false := by
          simp [heq, hkey]
        rw [hpred]
        simp only [Bool.false_eq_true, if_false]
        have hbump : bump acc i = mapUpsert acc (keyOfInc i) (initOcc i.1 i.2.1) i.2.2 := by
          unfold bump keyOfInc
          rw [if_neg heq]
        rw [hbump, lookupA_mapUpsert, if_neg hkey]

theorem replay_some (incs : List (String × String × Nat)) :
    ∀ (o : CoOcc), replay (some o) incs =
      some { o with
             count := o.count + incs.length
             shared_feature_ids := incs.foldl (fun s i => setAdd s i.2.2) o.shared_feature_ids } := by
  induction incs with
  | nil =>
    intro o
    rfl
  | cons i rest ih =>
    intro o
    show replay (some (updateOcc o i.2.2)) rest = _
    rw [ih]
    simp only [updateOcc, List.length_cons, List.foldl_cons, Option.some.injEq, CoOcc.mk.injEq]
    repeat' constructor
    all_goals first | rfl | omega

theorem replay_none_cons (i : String × String × Nat) (rest : List (String × String × Nat)) :
    replay none (i :: rest) =
      some { entity1 := (sortPair i.1 i.2.1).1, entity2 := (sortPair i.1 i.2.1).2
             count := 1 + rest.length
             shared_feature_ids := rest.foldl (fun s j => setAdd s j.2.2) [i.2.2] } := by
  show replay (some (updateOcc (initOcc i.1 i.2.1) i.2.2)) rest = _
  rw [replay_some]
  simp only [updateOcc, initOcc, setAdd, List.not_mem_nil, if_false, List.nil_append,
    Option.some.injEq, CoOcc.mk.injEq]

theorem keys_mapUpsert (acc : List (String × CoOcc)) (key : String) (init : CoOcc) (fid : Nat) :
    (mapUpsert acc key init fid).map Prod.fst =
      if key ∈ acc.map Prod.fst then acc.map Prod.fst else acc.map Prod.fst ++ [key] := by
  induction acc with
  | nil => simp [mapUpsert]
  | cons p rest ih =>
    rcases p with ⟨k', o⟩
    unfold mapUpsert
    split
    · rename_i hk
      subst hk
      simp
    · rename_i hk
      rw [List.map_cons, List.map_cons, ih]
      by_cases hmem : key ∈ rest.map Prod.fst
      · rw [if_pos hmem, if_pos (List.mem_cons.mpr (Or.inr hmem))]
      · rw [if_neg hmem, if_neg]
        · rfl
        · intro h
          rcases List.mem_cons.mp h with h | h
          · exact hk h.symm
          · exact hmem h

theorem keys_nodup_mapUpsert (acc : List (String × CoOcc)) (key : String) (init : CoOcc)
    (fid : Nat) (h : (acc.map Prod.fst).Nodup) :
    ((mapUpsert acc key init fid).map Prod.fst).Nodup := by
  rw [keys_mapUpsert]
  split
  · exact h
  · rename_i hmem
    simp [List.nodup_append, h, hmem]

theorem keys_nodup_bump (acc : List (String × CoOcc)) (i : String × String × Nat)
    (h : (acc.map Prod.fst).Nodup) : ((bump acc i).map Prod.fst).Nodup := by
  unfold bump
  split
  · exact h
  · exact keys_nodup_mapUpsert acc _ _ _ h

theorem keys_nodup_foldl_bump (incs : List (String × String × Nat)) :
    ∀ (acc : List (String × CoOcc)), (acc.map Prod.fst).Nodup →
      ((incs.foldl bump acc).map Prod.fst).Nodup := by
  induction incs with
  | nil => intro acc h; exact h
  | cons i rest ih =>
    intro acc h
    rw [List.foldl_cons]
    exact ih (bump acc i) (keys_nodup_bump acc i h)

theorem coOccurrences_keys_nodup (l : List EntityNode) :
    ((coOccurrences l).map Prod.fst).Nodup := by
  rw [coOccurrences_eq_foldl]
  exact keys_nodup_foldl_bump (allIncs l) [] (by simp)

theorem mem_coOccurrences_iff (l : List EntityNode) (k : String) (o : CoOcc) :
    (k, o) ∈ coOccurrences l ↔ lookupA k (coOccurrences l) = some o :=
  ⟨fun h => mem_lookupA _ _ _ (coOccurrences_keys_nodup l) h,
   fun h => lookupA_mem _ _ _ h⟩

theorem mem_calcRel (l : List EntityNode) (r : EntityRelationship) :
    r ∈ calculateEntityRelationships l ↔
      ∃ k o, lookupA k (coOccurrences l) = some o ∧ r = relFinalize o := by
  unfold calculateEntityRelationships
  rw [List.mem_map]
  constructor
  · rintro ⟨⟨k, o⟩, hmem, rfl⟩
    exact ⟨k, o, (mem_coOccurrences_iff l k o).mp hmem, rfl⟩
  · rintro ⟨k, o, hlook, rfl⟩
    exact ⟨(k, o), (mem_coOccurrences_iff l k o).mpr hlook, rfl⟩

theorem foldl_setAdd_length (li : List (String × String × Nat)) :
    ∀ (s : List Nat), (li.foldl (fun s j => setAdd s j.2.2) s).length ≤ s.length + li.length := by
  induction li with
  | nil => intro s; simp
  | cons j rest ih =>
    intro s
    rw [List.foldl_cons]
    calc (rest.foldl (fun s j => setAdd s j.2.2) (setAdd s j.2.2)).length
        ≤ (setAdd s j.2.2).length + rest.length := ih _
      _ ≤ s.length + 1 + rest.length :=
          Nat.add_le_add_right (length_setAdd_le s j.2.2) rest.length
      _ = s.length + (j :: rest).length := by simp; omega

theorem foldl_setAdd_ne_nil (li : List (String × String × Nat)) :
    ∀ (s : List Nat), s ≠ [] → li.foldl (fun s j => setAdd s j.2.2) s ≠ [] := by
  induction li with
  | nil => intro s h; exact h
  | cons j rest ih =>
    intro s h
    rw [List.foldl_cons]
    exact ih _ (setAdd_ne_nil s j.2.2)

/-! ### C10 — invariants of every emitted relationship -/

/-- C10: every relationship emitted by the calculator has a non-empty
shared-feature-id list, a co-occurrence count at least as large as the number
of listed shared feature ids, and lexicographically strictly ordered (hence
distinct) endpoint names. -/
theorem c10_relationship_invariants :
    ∀ (l : List EntityNode) (r : EntityRelationship), r ∈ calculateEntityRelationships l →
      r.shared_feature_ids ≠ []
      ∧ r.shared_feature_ids.length ≤ r.co_occurrence_count
      ∧ r.entity1 < r.entity2 ∧ r.entity1 ≠ r.entity2 := by
  intro l r hr
  rcases (mem_calcRel l r).mp hr with ⟨k, o, hlook, rfl⟩
  rw [coOccurrences_eq_foldl, lookupA_foldl_bump] at hlook
  rw [show (lookupA k ([] : List (String × CoOcc))) = none from rfl] at hlook
  rcases hrel : relevantIncs k (allIncs l) with _ | ⟨i, rest⟩
  · rw [hrel] at hlook
    cases hlook
  · rw [hrel, replay_none_cons] at hlook
    have hi : i ∈ relevantIncs k (allIncs l) := by
      rw [hrel]
      exact List.mem_cons_self i rest
    have hpred := (List.mem_filter.mp hi).2
    have hne : i.1 ≠ i.2.1 := by
      simp only [Bool.and_eq_true, Bool.not_eq_true', beq_eq_false_iff_ne] at hpred
      exact hpred.1
    have hlt : strLt (sortPair i.1 i.2.1).1 (sortPair i.1 i.2.1).2 = true :=
      sortPair_strLt i.1 i.2.1 hne
    cases hlook
    refine ⟨?_, ?_, ?_, ?_⟩
    · unfold relFinalize
      simp only [ne_eq, List.map_eq_nil_iff]
      exact foldl_setAdd_ne_nil rest [i.2.2] (by simp)
    · unfold relFinalize
      simp only [List.length_map]
      have := foldl_setAdd_length rest [i.2.2]
      simp only [List.length_singleton] at this
      omega
    · exact (strLt_iff_lt _ _).mp hlt
    · exact strLt_ne _ _ hlt

/-- C10 witness: the (X, Y) relationship of the Scenario A mention set
satisfies all the invariants. -/
theorem c10_relationship_invariants_witness :
    (({ entity1 := "X", entity2 := "Y", co_occurrence_count := 1, shared_feature_ids := ["1"] } : EntityRelationship).shared_feature_ids ≠ [])
    ∧ (({ entity1 := "X", entity2 := "Y", co_occurrence_count := 1, shared_feature_ids := ["1"] } : EntityRelationship).shared_feature_ids.length ≤ 1)
    ∧ ("X" : String) < "Y" ∧ ("X" : String) ≠ "Y" := by
  have h := c10_relationship_invariants scenarioMentions
    { entity1 := "X", entity2 := "Y", co_occurrence_count := 1, shared_feature_ids := ["1"] }
    (by decide)
  exact ⟨h.1, h.2.1, h.2.2.1, h.2.2.2⟩

/-! ### Feature groups, characterized -/

theorem keys_pushGroup (acc : List (Nat × List EntityNode)) (e : EntityNode) :
    (pushGroup acc e).map Prod.fst =
      if e.feature_id ∈ acc.map Prod.fst then acc.map Prod.fst
      else acc.map Prod.fst ++ [e.feature_id] := by
  induction acc with
  | nil => simp [pushGroup]
  | cons p rest ih =>
    rcases p with ⟨f, es⟩
    unfold pushGroup
    split
    · rename_i hf
      rw [List.map_cons, List.map_cons, if_pos (List.mem_cons.mpr (Or.inl hf))]
    · rename_i hf
      rw [List.map_cons, List.map_cons, ih]
      by_cases hmem : e.feature_id ∈ rest.map Prod.fst
      · rw [if_pos hmem, if_pos (List.mem_cons.mpr (Or.inr hmem))]
      · rw [if_neg hmem, if_neg]
        · rfl
        · intro h
          rcases List.mem_cons.mp h with h | h
          · exact hf h
          · exact hmem h

theorem keys_nodup_pushGroup (acc : List (Nat × List EntityNode)) (e : EntityNode)
    (h : (acc.map Prod.fst).Nodup) : ((pushGroup acc e).map Prod.fst).Nodup := by
  rw [keys_pushGroup]
  split
  · exact h
  · rename_i hmem
    simp [List.nodup_append, h, hmem]

theorem entitiesByFeature_keys_nodup (l : List EntityNode) :
    ((entitiesByFeature l).map Prod.fst).Nodup := by
  unfold entitiesByFeature
  have : ∀ (l : List EntityNode) (acc : List (Nat × List EntityNode)),
      (acc.map Prod.fst).Nodup → ((l.foldl pushGroup acc).map Prod.fst).Nodup := by
    intro l
    induction l with
    | nil => intro acc h; exact h
    | cons e rest ih =>
      intro acc h
      rw [List.foldl_cons]
      exact ih (pushGroup acc e) (keys_nodup_pushGroup acc e h)
  exact this l [] (by simp)

theorem lookupA_pushGroup (acc : List (Nat × List EntityNode)) (e : EntityNode) (f : Nat) :
    lookupA f (pushGroup acc e) =
      if e.feature_id = f then some ((lookupA f acc).getD [] ++ [e])
      else lookupA f acc := by
  induction acc with
  | nil =>
    unfold pushGroup
    rw [lookupA_cons]
    split
    · rfl
    · rfl
  | cons p rest ih =>
    rcases p with ⟨g, es⟩
    unfold pushGroup
    split
    · rename_i hg
      subst hg
      rw [lookupA_cons, lookupA_cons]
      by_cases hf : e.feature_id = f
      · rw [if_pos hf, if_pos hf, if_pos hf]
        rfl
      · rw [if_neg hf, if_neg hf, if_neg hf]
    · rename_i hg
      rw [lookupA_cons, lookupA_cons]
      by_cases hgf : g = f
      · subst hgf
        rw [if_pos rfl, if_neg hg, if_pos rfl]
      · rw [if_neg hgf, if_neg hgf, ih]

theorem lookupA_foldl_pushGroup (l : List EntityNode) :
    ∀ (acc : List (Nat × List EntityNode)) (f : Nat),
      lookupA f (l.foldl pushGroup acc) =
        if l.filter (fun e => e.feature_id == f) = [] then lookupA f acc
        else some ((lookupA f acc).getD [] ++ l.filter (fun e => e.feature_id == f)) := by
  induction l with
  | nil =>
    intro acc f
    simp
  | cons e rest ih =>
    intro acc f
    have hstep : (e :: rest).foldl pushGroup acc = rest.foldl pushGroup (pushGroup acc e) := rfl
    rw [hstep, ih]
    by_cases hf : e.feature_id = f
    · have hfilter : (e :: rest).filter (fun x => x.feature_id == f) =
          e :: rest.filter (fun x => x.feature_id == f) := by
        rw [List.filter_cons, if_pos (by simpa using hf)]
      have hpg : lookupA f (pushGroup acc e) = some ((lookupA f acc).getD [] ++ [e]) := by
        rw [lookupA_pushGroup, if_pos hf]
      rw [hfilter, hpg]
      by_cases hrest : rest.filter (fun x => x.feature_id == f) = []
      · rw [if_pos hrest, hrest, if_neg (by simp)]
      · rw [if_neg hrest, if_neg (by simp)]
        simp [List.append_assoc]
    · have hfilter : (e :: rest).filter (fun x => x.feature_id == f) =
          rest.filter (fun x => x.feature_id == f) := by
        rw [List.filter_cons, if_neg (by simpa using hf)]
      have hpg : lookupA f (pushGroup acc e) = lookupA f acc := by
        rw [lookupA_pushGroup, if_neg hf]
      rw [hfilter, hpg]

theorem lookupA_entitiesByFeature (l : List EntityNode) (f : Nat) :
    lookupA f (entitiesByFeature l) =
      if l.filter (fun e => e.feature_id == f) = [] then none
      else some (l.filter (fun e => e.feature_id == f)) := by
  unfold entitiesByFeature
  rw [lookupA_foldl_pushGroup]
  rw [show (lookupA f ([] : List (Nat × List EntityNode))) = none from rfl]
  split
  · rfl
  · simp

theorem mem_entitiesByFeature (l : List EntityNode) (g : Nat × List EntityNode) :
    g ∈ entitiesByFeature l ↔
      g.2 = l.filter (fun e => e.feature_id == g.1) ∧ g.2 ≠ [] := by
  rcases g with ⟨f, es⟩
  simp only
  constructor
  · intro h
    have hlook : lookupA f (entitiesByFeature l) = some es :=
      mem_lookupA _ _ _ (entitiesByFeature_keys_nodup l) h
    rw [lookupA_entitiesByFeature] at hlook
    split at hlook
    · cases hlook
    · rename_i hne
      have hes : es = l.filter (fun e => e.feature_id == f) := by
        injection hlook with h2
        exact h2.symm
      exact ⟨hes, by rw [hes]; exact hne⟩
  · rintro ⟨hval, hne⟩
    have hlook : lookupA f (entitiesByFeature l) = some es := by
      rw [lookupA_entitiesByFeature, if_neg (by rw [← hval]; exact hne), ← hval]
    exact lookupA_mem _ _ _ hlook

/-! ### Counting pair increments -/

theorem countP_flatMap {α β : Type} (p : β → Bool) (f : α → List β) (gs : List α) :
    (gs.flatMap f).countP p = (gs.map (fun g => (f g).countP p)).sum := by
  induction gs with
  | nil => rfl
  | cons g rest ih =>
    rw [List.flatMap_cons, List.countP_append, List.map_cons, List.sum_cons, ih]

theorem countP_canonPred_allPairs (a b : String) (hab : a ≠ b) (fid : Nat) :
    ∀ es : List EntityNode, (allPairs fid es).countP (canonPred a b) =
      cntIn es a * cntIn es b := by
  intro es
  induction es with
  | nil => rfl
  | cons e rest ih =>
    rw [show allPairs fid (e :: rest) =
        rest.map (fun e2 => (e.entity_name, e2.entity_name, fid)) ++ allPairs fid rest from rfl]
    rw [List.countP_append, List.countP_map, ih]
    by_cases ha : e.entity_name = a
    · have hcb : e.entity_name = b → False := fun h => hab (ha.symm.trans h)
      have hinner : rest.countP
          ((canonPred a b) ∘ (fun e2 => (e.entity_name, e2.entity_name, fid))) =
          cntIn rest b := by
        apply List.countP_congr
        intro e2 _
        simp only [Function.comp, canonPred, cntIn, Bool.or_eq_true, Bool.and_eq_true,
          beq_iff_eq]
        constructor
        · rintro (⟨_, h⟩ | ⟨h, _⟩)
          · exact h
          · exact absurd h hcb
        · intro h
          exact Or.inl ⟨ha, h⟩
      have hca : cntIn (e :: rest) a = cntIn rest a + 1 := by
        unfold cntIn
        rw [List.countP_cons, if_pos (by simpa using ha)]
      have hcbe : cntIn (e :: rest) b = cntIn rest b := by
        unfold cntIn
        rw [List.countP_cons, if_neg (by simpa using hcb)]
        rfl
      rw [hinner, hca, hcbe]
      ring
    · by_cases hb : e.entity_name = b
      · have hinner : rest.countP
            ((canonPred a b) ∘ (fun e2 => (e.entity_name, e2.entity_name, fid))) =
            cntIn rest a := by
          apply List.countP_congr
          intro e2 _
          simp only [Function.comp, canonPred, cntIn, Bool.or_eq_true, Bool.and_eq_true,
            beq_iff_eq]
          constructor
          · rintro (⟨h, _⟩ | ⟨_, h⟩)
            · exact absurd h ha
            · exact h
          · intro h
            exact Or.inr ⟨hb, h⟩
        have hca : cntIn (e :: rest) a = cntIn rest a := by
          unfold cntIn
          rw [List.countP_cons, if_neg (by simpa using ha)]
          rfl
        have hcbe : cntIn (e :: rest) b = cntIn rest b + 1 := by
          unfold cntIn
          rw [List.countP_cons, if_pos (by simpa using hb)]
        rw [hinner, hca, hcbe]
        ring
      · have hinner : rest.countP
            ((canonPred a b) ∘ (fun e2 => (e.entity_name, e2.entity_name, fid))) = 0 := by
          apply List.countP_eq_zero.mpr
          intro e2 _
          simp only [Function.comp, canonPred, Bool.or_eq_true, Bool.and_eq_true, beq_iff_eq]
          rintro (⟨h, _⟩ | ⟨h, _⟩)
          · exact ha h
          · exact hb h
        have hca : cntIn (e :: rest) a = cntIn rest a := by
          unfold cntIn
          rw [List.countP_cons, if_neg (by simpa using ha)]
          rfl
        have hcbe : cntIn (e :: rest) b = cntIn rest b := by
          unfold cntIn
          rw [List.countP_cons, if_neg (by simpa using hb)]
          rfl
        rw [hinner, hca, hcbe]
        ring

theorem cntIn_prod_zero_of_short (a b : String) (hab : a ≠ b) (es : List EntityNode)
    (h : es.length < 2) : cntIn es a * cntIn es b = 0 := by
  rcases es with _ | ⟨e, _ | ⟨e2, tl⟩⟩
  · rfl
  · by_cases ha : e.entity_name = a
    · have : cntIn [e] b = 0 := by
        unfold cntIn
        rw [List.countP_cons, if_neg (by simp [beq_iff_eq]; intro hh; exact hab (ha.symm.trans hh))]
        rfl
      rw [this, Nat.mul_zero]
    · have : cntIn [e] a = 0 := by
        unfold cntIn
        rw [List.countP_cons, if_neg (by simpa using ha)]
        rfl
      rw [this, Nat.zero_mul]
  · simp at h
    omega

theorem countP_canonPred_groupIncs (a b : String) (hab : a ≠ b) (g : Nat × List EntityNode) :
    (groupIncs g).countP (canonPred a b) = cntIn g.2 a * cntIn g.2 b := by
  unfold groupIncs
  split
  · rename_i h
    rw [show (([] : List (String × String × Nat)).countP (canonPred a b)) = 0 from rfl]
    exact (cntIn_prod_zero_of_short a b hab g.2 h).symm
  · exact countP_canonPred_allPairs a b hab g.1 g.2

theorem pairCount_eq_sum (a b : String) (hab : a ≠ b) (l : List EntityNode) :
    pairCount l a b =
      ((entitiesByFeature l).map (fun g => cntIn g.2 a * cntIn g.2 b)).sum := by
  unfold pairCount allIncs
  rw [countP_flatMap]
  congr 1
  exact List.map_congr_left (fun g _ => countP_canonPred_groupIncs a b hab g)

theorem mem_keys_iff_lookupA {α β : Type} [DecidableEq α] (A : List (α × β)) (k : α) :
    k ∈ A.map Prod.fst ↔ lookupA k A ≠ none := by
  induction A with
  | nil => simp [show (lookupA k ([] : List (α × β))) = none from rfl]
  | cons p rest ih =>
    rcases p with ⟨k', v⟩
    rw [List.map_cons, List.mem_cons, lookupA_cons]
    by_cases hk : k' = k
    · rw [if_pos hk]
      simp [hk.symm]
    · rw [if_neg hk, ← ih]
      constructor
      · rintro (rfl | h)
        · exact absurd rfl hk
        · exact h
      · intro h
        exact Or.inr h

theorem mem_keys_entitiesByFeature (l : List EntityNode) (f : Nat) :
    f ∈ (entitiesByFeature l).map Prod.fst ↔ ∃ e ∈ l, e.feature_id = f := by
  rw [mem_keys_iff_lookupA, lookupA_entitiesByFeature]
  split
  · rename_i hnil
    simp only [ne_eq, not_true_eq_false, false_iff]
    rw [List.filter_eq_nil_iff] at hnil
    rintro ⟨e, he, hef⟩
    exact hnil e he (by simpa using hef)
  · rename_i hnil
    simp only [ne_eq, reduceCtorEq, not_false_eq_true, true_iff]
    rcases List.exists_mem_of_ne_nil _ hnil with ⟨e, he⟩
    rcases List.mem_filter.mp he with ⟨hel, hef⟩
    exact ⟨e, hel, by simpa using hef⟩

theorem cntNameFeat_perm (c : String) (f : Nat) {l₁ l₂ : List EntityNode}
    (hperm : l₁.Perm l₂) : cntNameFeat l₁ c f = cntNameFeat l₂ c f := by
  unfold cntNameFeat cntIn
  exact List.Perm.countP_eq _ (hperm.filter _)

theorem pairCount_perm (a b : String) (hab : a ≠ b) {l₁ l₂ : List EntityNode}
    (hperm : l₁.Perm l₂) : pairCount l₁ a b = pairCount l₂ a b := by
  rw [pairCount_eq_sum a b hab, pairCount_eq_sum a b hab]
  have hform : ∀ l : List EntityNode,
      (entitiesByFeature l).map (fun g => cntIn g.2 a * cntIn g.2 b) =
        ((entitiesByFeature l).map Prod.fst).map
          (fun f => cntNameFeat l a f * cntNameFeat l b f) := by
    intro l
    rw [List.map_map]
    apply List.map_congr_left
    intro g hg
    rcases (mem_entitiesByFeature l g).mp hg with ⟨hval, _⟩
    simp only [Function.comp]
    unfold cntNameFeat
    rw [← hval]
  rw [hform l₁, hform l₂]
  have hkeys : ((entitiesByFeature l₁).map Prod.fst).Perm
      ((entitiesByFeature l₂).map Prod.fst) := by
    rw [List.perm_ext_iff_of_nodup (entitiesByFeature_keys_nodup l₁)
      (entitiesByFeature_keys_nodup l₂)]
    intro f
    rw [mem_keys_entitiesByFeature, mem_keys_entitiesByFeature]
    constructor
    · rintro ⟨e, he, hef⟩
      exact ⟨e, hperm.mem_iff.mp he, hef⟩
    · rintro ⟨e, he, hef⟩
      exact ⟨e, hperm.mem_iff.mpr he, hef⟩
  calc (((entitiesByFeature l₁).map Prod.fst).map
        (fun f => cntNameFeat l₁ a f * cntNameFeat l₁ b f)).sum
      = (((entitiesByFeature l₁).map Prod.fst).map
        (fun f => cntNameFeat l₂ a f * cntNameFeat l₂ b f)).sum := by
        congr 1
        exact List.map_congr_left
          (fun f _ => by rw [cntNameFeat_perm a f hperm, cntNameFeat_perm b f hperm])
    _ = (((entitiesByFeature l₂).map Prod.fst).map
        (fun f => cntNameFeat l₂ a f * cntNameFeat l₂ b f)).sum :=
        (hkeys.map _).sum_eq

/-! ### Shared feature ids, characterized -/

theorem mem_allPairs (fid : Nat) :
    ∀ (es : List EntityNode) (i : String × String × Nat), i ∈ allPairs fid es →
      (∃ e1 ∈ es, e1.entity_name = i.1) ∧ (∃ e2 ∈ es, e2.entity_name = i.2.1) ∧
        i.2.2 = fid := by
  intro es
  induction es with
  | nil =>
    intro i hi
    simp [allPairs] at hi
  | cons e rest ih =>
    intro i hi
    rw [show allPairs fid (e :: rest) =
        rest.map (fun e2 => (e.entity_name, e2.entity_name, fid)) ++ allPairs fid rest
        from rfl] at hi
    rcases List.mem_append.mp hi with hmap | hrest
    · rcases List.mem_map.mp hmap with ⟨e2, he2, rfl⟩
      exact ⟨⟨e, List.mem_cons_self e rest, rfl⟩,
        ⟨e2, List.mem_cons_of_mem e he2, rfl⟩, rfl⟩
    · rcases ih i hrest with ⟨⟨e1, he1, h1⟩, ⟨e2, he2, h2⟩, h3⟩
      exact ⟨⟨e1, List.mem_cons_of_mem e he1, h1⟩,
        ⟨e2, List.mem_cons_of_mem e he2, h2⟩, h3⟩

theorem mem_groupIncs_fid (g : Nat × List EntityNode) (i : String × String × Nat)
    (hi : i ∈ groupIncs g) : i ∈ allPairs g.1 g.2 ∧ i.2.2 = g.1 := by
  unfold groupIncs at hi
  split at hi
  · simp at hi
  · exact ⟨hi, (mem_allPairs g.1 g.2 i hi).2.2⟩

theorem mem_sharedIdSet (a b : String) (hab : a ≠ b) (l : List EntityNode) (s : String) :
    s ∈ sharedIdSet l a b ↔
      ∃ f : Nat, cntNameFeat l a f ≠ 0 ∧ cntNameFeat l b f ≠ 0 ∧ toString f = s := by
  unfold sharedIdSet
  rw [List.mem_toFinset, List.mem_map]
  constructor
  · rintro ⟨i, hi, hs⟩
    rcases List.mem_filter.mp hi with ⟨hmem, hpred⟩
    rcases List.mem_flatMap.mp hmem with ⟨g, hg, hgi⟩
    rcases mem_groupIncs_fid g i hgi with ⟨hpair, hfid⟩
    rcases (mem_entitiesByFeature l g).mp hg with ⟨hval, _⟩
    have hcount : (allPairs g.1 g.2).countP (canonPred a b) ≠ 0 := by
      intro h0
      have := List.countP_eq_zero.mp h0 i hpair
      exact this hpred
    rw [countP_canonPred_allPairs a b hab] at hcount
    have hprod := Nat.mul_ne_zero_iff.mp hcount
    refine ⟨g.1, ?_, ?_, by rw [← hfid]; exact hs⟩
    · unfold cntNameFeat
      rw [← hval]
      exact hprod.1
    · unfold cntNameFeat
      rw [← hval]
      exact hprod.2
  · rintro ⟨f, hfa, hfb, hs⟩
    have hprod : cntIn (l.filter (fun e => e.feature_id == f)) a *
        cntIn (l.filter (fun e => e.feature_id == f)) b ≠ 0 :=
      Nat.mul_ne_zero hfa hfb
    have hcount : (allPairs f (l.filter (fun e => e.feature_id == f))).countP
        (canonPred a b) ≠ 0 := by
      rw [countP_canonPred_allPairs a b hab]
      exact hprod
    have hne : l.filter (fun e => e.feature_id == f) ≠ [] := by
      intro h0
      rw [h0] at hprod
      exact hprod rfl
    have hg : (f, l.filter (fun e => e.feature_id == f)) ∈ entitiesByFeature l :=
      (mem_entitiesByFeature l (f, l.filter (fun e => e.feature_id == f))).mpr ⟨rfl, hne⟩
    have hlen : ¬ (l.filter (fun e => e.feature_id == f)).length < 2 := by
      intro hshort
      exact hprod (cntIn_prod_zero_of_short a b hab _ hshort)
    rcases (List.countP_pos_iff).mp (Nat.pos_of_ne_zero hcount) with ⟨i, hi, hpred⟩
    refine ⟨i, List.mem_filter.mpr ⟨?_, hpred⟩, ?_⟩
    · apply List.mem_flatMap.mpr
      refine ⟨(f, l.filter (fun e => e.feature_id == f)), hg, ?_⟩
      unfold groupIncs
      rw [if_neg hlen]
      exact hi
    · have hfid := (mem_allPairs f _ i hi).2.2
      rw [hfid]
      exact hs

theorem sharedIdSet_perm (a b : String) (hab : a ≠ b) {l₁ l₂ : List EntityNode}
    (hperm : l₁.Perm l₂) : sharedIdSet l₁ a b = sharedIdSet l₂ a b := by
  apply Finset.ext
  intro s
  rw [mem_sharedIdSet a b hab, mem_sharedIdSet a b hab]
  constructor
  · rintro ⟨f, hfa, hfb, hs⟩
    exact ⟨f, by rw [← cntNameFeat_perm a f hperm]; exact hfa,
      by rw [← cntNameFeat_perm b f hperm]; exact hfb, hs⟩
  · rintro ⟨f, hfa, hfb, hs⟩
    exact ⟨f, by rw [cntNameFeat_perm a f hperm]; exact hfa,
      by rw [cntNameFeat_perm b f hperm]; exact hfb, hs⟩

/-! ### Pipe-free keys are injective -/

theorem append_pipe_inj (c : Char) :
    ∀ (l₁ m₁ l₂ m₂ : List Char), c ∉ l₁ → c ∉ m₁ →
      l₁ ++ c :: l₂ = m₁ ++ c :: m₂ → l₁ = m₁ ∧ l₂ = m₂ := by
  intro l₁
  induction l₁ with
  | nil =>
    intro m₁ l₂ m₂ _ h2 heq
    cases m₁ with
    | nil =>
      simp only [List.nil_append] at heq
      injection heq with _ htail
      exact ⟨rfl, htail⟩
    | cons x m₁ =>
      simp only [List.nil_append, List.cons_append] at heq
      injection heq with hc _
      exact absurd (List.mem_cons.mpr (Or.inl hc)) h2
  | cons y l₁ ih =>
    intro m₁ l₂ m₂ h1 h2 heq
    cases m₁ with
    | nil =>
      simp only [List.cons_append, List.nil_append] at heq
      injection heq with hc _
      exact absurd (List.mem_cons.mpr (Or.inl hc.symm)) h1
    | cons x m₁ =>
      simp only [List.cons_append] at heq
      injection heq with hyx htail
      rcases ih m₁ l₂ m₂ (fun h => h1 (List.mem_cons_of_mem y h))
        (fun h => h2 (List.mem_cons_of_mem x h)) htail with ⟨ha, hb⟩
      exact ⟨by rw [hyx, ha], hb⟩

theorem pipe_join_inj (u v x y : String) (hu : pipeFree u) (hv : pipeFree v)
    (hx : pipeFree x) (hy : pipeFree y)
    (h : u ++ "|" ++ v = x ++ "|" ++ y) : u = x ∧ v = y := by
  have hd : (u ++ "|" ++ v).data = (x ++ "|" ++ y).data := congrArg String.data h
  rw [String.data_append, String.data_append, String.data_append, String.data_append] at hd
  have hd' : u.data ++ '|' :: v.data = x.data ++ '|' :: y.data := by
    simpa [List.append_assoc] using hd
  rcases append_pipe_inj '|' u.data x.data v.data y.data hu hx hd' with ⟨h1, h2⟩
  exact ⟨String.toList_inj.mp h1, String.toList_inj.mp h2⟩

theorem pipeFree_sortPair (x y : String) (hx : pipeFree x) (hy : pipeFree y) :
    pipeFree (sortPair x y).1 ∧ pipeFree (sortPair x y).2 := by
  unfold sortPair
  split
  · exact ⟨hx, hy⟩
  · exact ⟨hy, hx⟩

theorem allIncs_names_pipeFree (l : List EntityNode)
    (hpf : ∀ e ∈ l, pipeFree e.entity_name) (i : String × String × Nat)
    (hi : i ∈ allIncs l) : pipeFree i.1 ∧ pipeFree i.2.1 := by
  rcases List.mem_flatMap.mp hi with ⟨g, hg, hgi⟩
  rcases mem_groupIncs_fid g i hgi with ⟨hpair, _⟩
  rcases mem_allPairs g.1 g.2 i hpair with ⟨⟨e1, he1, h1⟩, ⟨e2, he2, h2⟩, _⟩
  rcases (mem_entitiesByFeature l g).mp hg with ⟨hval, _⟩
  rw [hval] at he1 he2
  have he1l : e1 ∈ l := (List.mem_filter.mp he1).1
  have he2l : e2 ∈ l := (List.mem_filter.mp he2).1
  exact ⟨h1 ▸ hpf e1 he1l, h2 ▸ hpf e2 he2l⟩

theorem relevant_pred_eq_canonPred (a b : String) (hab : strLt a b = true)
    (hpa : pipeFree a) (hpb : pipeFree b) (i : String × String × Nat)
    (h1 : pipeFree i.1) (h2 : pipeFree i.2.1) :
    ((!(i.1 == i.2.1)) && (keyOfInc i == pairKey a b)) = canonPred a b i := by
  have hne_ab : a ≠ b := strLt_ne a b hab
  by_cases heq : i.1 = i.2.1
  · have hl : (!(i.1 == i.2.1)) = false := by simp [heq]
    rw [hl, Bool.false_and]
    symm
    unfold canonPred
    simp only [Bool.or_eq_false_iff, Bool.and_eq_false_iff]
    constructor
    · by_cases hia : i.1 = a
      · right
        simp only [beq_eq_false_iff_ne, ne_eq]
        intro hib
        exact hne_ab (hia.symm.trans (heq.trans hib))
      · left
        simpa using hia
    · by_cases hib : i.1 = b
      · right
        simp only [beq_eq_false_iff_ne, ne_eq]
        intro hia
        exact hne_ab ((heq.trans hia).symm.trans hib)
      · left
        simpa using hib
  · have hl : (!(i.1 == i.2.1)) = true := by simp [heq]
    rw [hl, Bool.true_and]
    have hkey_ab : pairKey a b = a ++ "|" ++ b := by
      unfold pairKey
      rw [sortPair_of_strLt a b hab]
    rcases pipeFree_sortPair i.1 i.2.1 h1 h2 with ⟨hsp1, hsp2⟩
    have hiff : (keyOfInc i == pairKey a b) = true ↔ canonPred a b i = true := by
      constructor
      · intro hbeq
        have hkeq : keyOfInc i = pairKey a b := by simpa using hbeq
        unfold keyOfInc at hkeq
        rw [hkey_ab] at hkeq
        unfold pairKey at hkeq
        rcases pipe_join_inj _ _ _ _ hsp1 hsp2 hpa hpb hkeq with ⟨hfst, hsnd⟩
        unfold canonPred
        unfold sortPair at hfst hsnd
        by_cases hlt : strLt i.1 i.2.1 = true
        · rw [if_pos hlt] at hfst hsnd
          simp only [Bool.or_eq_true, Bool.and_eq_true, beq_iff_eq]
          exact Or.inl ⟨hfst, hsnd⟩
        · rw [if_neg hlt] at hfst hsnd
          simp only [Bool.or_eq_true, Bool.and_eq_true, beq_iff_eq]
          exact Or.inr ⟨hsnd, hfst⟩
      · intro hc
        unfold canonPred at hc
        simp only [Bool.or_eq_true, Bool.and_eq_true, beq_iff_eq] at hc
        have hkeq : keyOfInc i = pairKey a b := by
          unfold keyOfInc
          rcases hc with ⟨hc1, hc2⟩ | ⟨hc1, hc2⟩
          · rw [hc1, hc2]
          · rw [hc1, hc2]
            unfold pairKey
            rw [sortPair_swap_of_strLt a b hab, sortPair_of_strLt a b hab]
        simpa using hkeq
    cases hc : canonPred a b i
    · rw [Bool.eq_false_iff]
      intro hbeq
      have := hiff.mp hbeq
      rw [hc] at this
      cases this
    · exact hiff.mpr hc

/-! ### C6 — the relationship set as a function of the mention multiset -/

theorem idsFinset_of_filter (l : List EntityNode) (a b : String)
    (i : String × String × Nat) (rest : List (String × String × Nat))
    (hfil : (allIncs l).filter (canonPred a b) = i :: rest) :
    ((rest.foldl (fun s j => setAdd s j.2.2) [i.2.2]).map (fun n => toString n)).toFinset =
      sharedIdSet l a b := by
  apply Finset.ext
  intro s
  rw [List.mem_toFinset, List.mem_map]
  unfold sharedIdSet
  rw [hfil, List.mem_toFinset, List.mem_map]
  constructor
  · rintro ⟨x, hx, rfl⟩
    rcases (mem_foldl_setAdd (fun j => j.2.2) rest [i.2.2] x).mp hx with hx1 | ⟨j, hj, rfl⟩
    · have hxi : x = i.2.2 := by simpa using hx1
      exact ⟨i, List.mem_cons_self i rest, by rw [hxi]⟩
    · exact ⟨j, List.mem_cons_of_mem i hj, rfl⟩
  · rintro ⟨j, hj, rfl⟩
    rcases List.mem_cons.mp hj with rfl | hj
    · exact ⟨j.2.2,
        (mem_foldl_setAdd (fun j => j.2.2) rest [j.2.2] j.2.2).mpr (Or.inl (by simp)), rfl⟩
    · exact ⟨j.2.2,
        (mem_foldl_setAdd (fun j => j.2.2) rest [i.2.2] j.2.2).mpr (Or.inr ⟨j, hj, rfl⟩), rfl⟩

/-- The value-level content of the relationship list over a pipe-free mention
list: one entry per strictly ordered name pair with a positive increment
count, carrying that count and the shared feature-id set. -/
theorem calcRel_view_characterization (l : List EntityNode)
    (hpf : ∀ e ∈ l, pipeFree e.entity_name)
    (v : String × String × Nat × Finset String) :
    (∃ r ∈ calculateEntityRelationships l, relView r = v) ↔
      (∃ a b, strLt a b = true ∧ pipeFree a ∧ pipeFree b ∧ pairCount l a b ≠ 0 ∧
        v = (a, b, pairCount l a b, sharedIdSet l a b)) := by
  constructor
  · rintro ⟨r, hr, rfl⟩
    rcases (mem_calcRel l r).mp hr with ⟨k, o, hlook, rfl⟩
    rw [coOccurrences_eq_foldl, lookupA_foldl_bump,
      show (lookupA k ([] : List (String × CoOcc))) = none from rfl] at hlook
    rcases hrel : relevantIncs k (allIncs l) with _ | ⟨i, rest⟩
    · rw [hrel] at hlook
      cases hlook
    · rw [hrel, replay_none_cons] at hlook
      have hi : i ∈ relevantIncs k (allIncs l) := by
        rw [hrel]
        exact List.mem_cons_self i rest
      rcases List.mem_filter.mp hi with ⟨himem, hipred⟩
      simp only [Bool.and_eq_true, Bool.not_eq_true', beq_eq_false_iff_ne, beq_iff_eq]
        at hipred
      rcases hipred with ⟨hine, hikey⟩
      rcases allIncs_names_pipeFree l hpf i himem with ⟨hp1, hp2⟩
      rcases hip : sortPair i.1 i.2.1 with ⟨a, b⟩
      have hab : strLt a b = true := by
        have := sortPair_strLt i.1 i.2.1 hine
        rw [hip] at this
        exact this
      have hpab : pipeFree a ∧ pipeFree b := by
        have := pipeFree_sortPair i.1 i.2.1 hp1 hp2
        rw [hip] at this
        exact this
      have hk_eq : k = pairKey a b := by
        rw [← hikey]
        unfold keyOfInc pairKey
        rw [hip, sortPair_of_strLt a b hab]
      have hfilter_eq : relevantIncs k (allIncs l) = (allIncs l).filter (canonPred a b) := by
        unfold relevantIncs
        apply List.filter_congr
        intro j hj
        rcases allIncs_names_pipeFree l hpf j hj with ⟨hq1, hq2⟩
        rw [hk_eq]
        exact relevant_pred_eq_canonPred a b hab hpab.1 hpab.2 j hq1 hq2
      have hfil : (allIncs l).filter (canonPred a b) = i :: rest :=
        hfilter_eq.symm.trans hrel
      have hcnt : pairCount l a b = rest.length + 1 := by
        unfold pairCount
        rw [List.countP_eq_length_filter, hfil, List.length_cons]
      rw [hip] at hlook
      cases hlook
      refine ⟨a, b, hab, hpab.1, hpab.2, by omega, ?_⟩
      have hview : relView (relFinalize
          { entity1 := a, entity2 := b, count := 1 + rest.length
            shared_feature_ids := rest.foldl (fun s j => setAdd s j.2.2) [i.2.2] }) =
          (a, b, 1 + rest.length,
            ((rest.foldl (fun s j => setAdd s j.2.2) [i.2.2]).map
              (fun n => toString n)).toFinset) := rfl
      rw [hview, idsFinset_of_filter l a b i rest hfil]
      have : (1 : Nat) + rest.length = pairCount l a b := by omega
      rw [this]
  · rintro ⟨a, b, hab, hpa, hpb, hcnt0, rfl⟩
    have hfilter_eq : relevantIncs (pairKey a b) (allIncs l) =
        (allIncs l).filter (canonPred a b) := by
      unfold relevantIncs
      apply List.filter_congr
      intro j hj
      rcases allIncs_names_pipeFree l hpf j hj with ⟨hq1, hq2⟩
      exact relevant_pred_eq_canonPred a b hab hpa hpb j hq1 hq2
    have hlen : (relevantIncs (pairKey a b) (allIncs l)).length = pairCount l a b := by
      rw [hfilter_eq]
      unfold pairCount
      rw [List.countP_eq_length_filter]
    rcases hrel : relevantIncs (pairKey a b) (allIncs l) with _ | ⟨i, rest⟩
    · rw [hrel] at hlen
      exact absurd hlen.symm (by simpa using hcnt0)
    · have hfil : (allIncs l).filter (canonPred a b) = i :: rest :=
        hfilter_eq.symm.trans hrel
      have hi : i ∈ (allIncs l).filter (canonPred a b) := by
        rw [hfil]
        exact List.mem_cons_self i rest
      have hican : canonPred a b i = true := (List.mem_filter.mp hi).2
      have hsort : sortPair i.1 i.2.1 = (a, b) := by
        unfold canonPred at hican
        simp only [Bool.or_eq_true, Bool.and_eq_true, beq_iff_eq] at hican
        rcases hican with ⟨h1, h2⟩ | ⟨h1, h2⟩
        · rw [h1, h2]
          exact sortPair_of_strLt a b hab
        · rw [h1, h2]
          exact sortPair_swap_of_strLt a b hab
      have hlook : lookupA (pairKey a b) (coOccurrences l) = some
          { entity1 := a, entity2 := b, count := 1 + rest.length
            shared_feature_ids := rest.foldl (fun s j => setAdd s j.2.2) [i.2.2] } := by
        rw [coOccurrences_eq_foldl, lookupA_foldl_bump,
          show (lookupA (pairKey a b) ([] : List (String × CoOcc))) = none from rfl,
          hrel, replay_none_cons, hsort]
      refine ⟨relFinalize
        { entity1 := a, entity2 := b, count := 1 + rest.length
          shared_feature_ids := rest.foldl (fun s j => setAdd s j.2.2) [i.2.2] },
        (mem_calcRel l _).mpr ⟨pairKey a b, _, hlook, rfl⟩, ?_⟩
      have hcnt : pairCount l a b = rest.length + 1 := by
        unfold pairCount
        rw [List.countP_eq_length_filter, hfil, List.length_cons]
      have hview : relView (relFinalize
          { entity1 := a, entity2 := b, count := 1 + rest.length
            shared_feature_ids := rest.foldl (fun s j => setAdd s j.2.2) [i.2.2] }) =
          (a, b, 1 + rest.length,
            ((rest.foldl (fun s j => setAdd s j.2.2) [i.2.2]).map
              (fun n => toString n)).toFinset) := rfl
      rw [hview, idsFinset_of_filter l a b i rest hfil]
      have : (1 : Nat) + rest.length = pairCount l a b := by omega
      rw [this]

/-- C6 counterexample: the two pipe-carrying mention lists are permutations
of each other, yet their relationship sets (endpoints, weight, shared-id set)
differ, because the pairs ("a|b", "c") and ("a", "b|c") collide on the
accumulator key "a|b|c". -/
theorem c6_permutation_invariance_counterexample :
    pipeMentions1.Perm pipeMentions2 ∧ relViewSet pipeMentions1 ≠ relViewSet pipeMentions2 :=
  ⟨(List.reverse_perm pipeMentions1).symm, by decide⟩

/-- C6 amended: for mention lists whose entity names contain no pipe
character (so that accumulator keys are in bijection with name pairs), the
relationship set produced by the calculator — compared as (entity pair,
co-occurrence count, set of shared feature ids) — is invariant under
permutation of the input sequence. -/
theorem c6_permutation_invariance_pipe_free :
    ∀ (l₁ l₂ : List EntityNode), l₁.Perm l₂ → (∀ e ∈ l₁, pipeFree e.entity_name) →
      relViewSet l₁ = relViewSet l₂ := by
  intro l₁ l₂ hperm hpf1
  have hpf2 : ∀ e ∈ l₂, pipeFree e.entity_name := fun e he => hpf1 e (hperm.mem_iff.mpr he)
  unfold relViewSet
  apply Finset.ext
  intro v
  rw [List.mem_toFinset, List.mem_toFinset, List.mem_map, List.mem_map]
  rw [calcRel_view_characterization l₁ hpf1 v, calcRel_view_characterization l₂ hpf2 v]
  constructor
  · rintro ⟨a, b, hab, hpa, hpb, hcnt, rfl⟩
    have hne : a ≠ b := strLt_ne a b hab
    refine ⟨a, b, hab, hpa, hpb, ?_, ?_⟩
    · rw [← pairCount_perm a b hne hperm]
      exact hcnt
    · rw [pairCount_perm a b hne hperm, sharedIdSet_perm a b hne hperm]
  · rintro ⟨a, b, hab, hpa, hpb, hcnt, rfl⟩
    have hne : a ≠ b := strLt_ne a b hab
    refine ⟨a, b, hab, hpa, hpb, ?_, ?_⟩
    · rw [pairCount_perm a b hne hperm]
      exact hcnt
    · rw [pairCount_perm a b hne hperm, sharedIdSet_perm a b hne hperm]

/-- C6 witness: reversing the Scenario A mention list (pipe-free names)
leaves the relationship set unchanged. -/
theorem c6_permutation_invariance_pipe_free_witness :
    relViewSet scenarioMentions = relViewSet scenarioMentions.reverse :=
  c6_permutation_invariance_pipe_free scenarioMentions scenarioMentions.reverse
    (List.reverse_perm scenarioMentions).symm (by decide)
